import Mathlib

/-!
# Verification of the Avro JSON-schema parser and the bloom-filter CLI

This development shallowly embeds `arrow-avro/src/schema.rs` (a serde-based
decoder/encoder between JSON values and an Avro `Schema` object graph) and
`parquet/src/bin/parquet-show-bloom-filter.rs` (the per-value bloom-filter
check) and proves properties of the embedded functions.

Modelling conventions:
* JSON values are the inductive `Json`; objects are association lists of
  key/value pairs, looked up by first occurrence.  JSON numbers are modelled
  as integers (no claim depends on non-integral numbers).
* Rust's borrowed `&str` become `String`; `HashMap<&str, Value>` (the open
  attribute bag) becomes the association list kept in source order, which is
  finer than the map equality used by the code (`PartialEq` on `HashMap`).
* serde's `#[serde(untagged)]` resolution tries the variants in declaration
  order and keeps the first success; `#[serde(tag = "type")]` dispatches on
  the `"type"` key; `#[serde(flatten)]` collects every key not consumed by a
  named field; `#[serde(default)]` applies only when the key is absent, and
  `Option` fields additionally accept an explicit JSON `null`.  The model
  covers JSON-object-shaped struct payloads (the Avro grammar); serde's
  exotic struct-from-sequence fallback is outside the grammar and not
  modelled (structs with `flatten` reject sequences anyway).
-/

namespace Avro

/-- A JSON value tree (the serde_json `Value` layer as far as the schema
grammar needs it; numbers restricted to integers). -/
inductive Json where
  | null : Json
  | bool : Bool → Json
  | num : Int → Json
  | str : String → Json
  | arr : List Json → Json
  | obj : List (String × Json) → Json

/-- First-occurrence lookup of a key in a JSON object's entry list. -/
def lookupJ (k : String) : List (String × Json) → Option Json
  | [] => none
  | (k', v) :: rest => if k' = k then some v else lookupJ k rest

/-- Drop every entry whose key appears in `ks` (the keys consumed by the
owning struct, which serde's `flatten` never sees). -/
def removeKeys (ks : List String) (kvs : List (String × Json)) :
    List (String × Json) :=
  kvs.filter (fun e => !(ks.contains e.fst))

/-- `PrimitiveType` from schema.rs: the 8 primitive Avro types, whose JSON
form is the camelCase (here: all-lowercase) rename of the variant. -/
inductive PrimitiveType where
  | null : PrimitiveType
  | boolean : PrimitiveType
  | int : PrimitiveType
  | long : PrimitiveType
  | float : PrimitiveType
  | double : PrimitiveType
  | bytes : PrimitiveType
  | string : PrimitiveType
deriving DecidableEq

/-- The reserved lower-case word of a primitive type (serde's
`rename_all = "camelCase"` on the unit variants). -/
def primitiveWord : PrimitiveType → String
  | .null => "null"
  | .boolean => "boolean"
  | .int => "int"
  | .long => "long"
  | .float => "float"
  | .double => "double"
  | .bytes => "bytes"
  | .string => "string"

/-- `TypeName` from schema.rs: either a primitive type or a reference to a
named type, `#[serde(untagged)]` over the two variants. -/
inductive TypeName where
  | primitive : PrimitiveType → TypeName
  | ref : String → TypeName
deriving DecidableEq

/-- Decoding a JSON string as a `TypeName`: serde's untagged resolution
tries `Primitive` (exact match against the 8 reserved words) first and
falls back to `Ref` carrying the string as-is.  Total, because `Ref`
accepts every string. -/
def parseTypeName (s : String) : TypeName :=
  if s = "null" then .primitive .null
  else if s = "boolean" then .primitive .boolean
  else if s = "int" then .primitive .int
  else if s = "long" then .primitive .long
  else if s = "float" then .primitive .float
  else if s = "double" then .primitive .double
  else if s = "bytes" then .primitive .bytes
  else if s = "string" then .primitive .string
  else .ref s

/-- Serialization of a `TypeName` back to its JSON string. -/
def encodeTypeName : TypeName → String
  | .primitive p => primitiveWord p
  | .ref s => s

/-- `Attributes` from schema.rs: the dedicated `logical_type` slot (JSON key
`"logicalType"`, `#[serde(default)]`) plus the open `#[serde(flatten)]`
mapping of all remaining keys.  The `HashMap` is modelled as the
association list of entries in source order. -/
structure Attributes where
  logicalType : Option String
  additional : List (String × Json)

/-- `Type` from schema.rs (named `AType` here because `Type` is a Lean
keyword): a bare `TypeName` under the `"type"` key plus flattened
`Attributes`. -/
structure AType where
  type : TypeName
  attributes : Attributes

/-- `Enum` from schema.rs.  `nspace` models the Rust field `namespace`
(`namespace` is a Lean keyword). -/
structure Enum where
  name : String
  nspace : Option String
  doc : Option String
  aliases : List String
  symbols : List String
  default : Option String
  attributes : Attributes

/-- `Fixed` from schema.rs.  `size : usize` is modelled as `Nat`. -/
structure Fixed where
  name : String
  nspace : Option String
  aliases : List String
  size : Nat
  attributes : Attributes

mutual
/-- `Schema` from schema.rs: the `#[serde(untagged)]` four-way sum.  The
variant order (`TypeName`, `Union`, `Complex`, `Type`) is the serde
resolution order. -/
inductive Schema where
  | typeName : TypeName → Schema
  | union : List Schema → Schema
  | complex : ComplexType → Schema
  | attrType : AType → Schema

/-- `ComplexType` from schema.rs: `#[serde(tag = "type")]` dispatch over the
five camelCase tags `record`, `enum`, `array`, `map`, `fixed`. -/
inductive ComplexType where
  | record : Record → ComplexType
  | enum : Enum → ComplexType
  | array : Array → ComplexType
  | map : Map → ComplexType
  | fixed : Fixed → ComplexType

/-- `Record` from schema.rs, fields in declaration order: `name`,
`namespace` (here `nspace`), `doc`, `aliases`, `fields`, flattened
`attributes`. -/
inductive Record where
  | mk : String → Option String → Option String → List String → List Field →
      Attributes → Record

/-- `Field` from schema.rs: `name`, `doc`, `r#type` (a full nested
`Schema`), `default` (`Option<&str>`).  Note `Field` has no
`#[serde(flatten)]` bag: unknown keys are ignored. -/
inductive Field where
  | mk : String → Option String → Schema → Option String → Field

/-- `Array` from schema.rs: the boxed `items` schema plus flattened
attributes. -/
inductive Array where
  | mk : Schema → Attributes → Array

/-- `Map` from schema.rs: the boxed `values` schema plus flattened
attributes. -/
inductive Map where
  | mk : Schema → Attributes → Map
end

def Record.name : Record → String
  | ⟨n, _, _, _, _, _⟩ => n

/-- The Rust field `namespace` of `Record`. -/
def Record.nspace : Record → Option String
  | ⟨_, ns, _, _, _, _⟩ => ns

def Record.doc : Record → Option String
  | ⟨_, _, d, _, _, _⟩ => d

def Record.aliases : Record → List String
  | ⟨_, _, _, al, _, _⟩ => al

def Record.fields : Record → List Field
  | ⟨_, _, _, _, fs, _⟩ => fs

def Record.attributes : Record → Attributes
  | ⟨_, _, _, _, _, a⟩ => a

def Field.name : Field → String
  | ⟨n, _, _, _⟩ => n

def Field.doc : Field → Option String
  | ⟨_, d, _, _⟩ => d

def Field.type : Field → Schema
  | ⟨_, _, t, _⟩ => t

def Field.default : Field → Option String
  | ⟨_, _, _, df⟩ => df

def Array.items : Array → Schema
  | ⟨i, _⟩ => i

def Array.attributes : Array → Attributes
  | ⟨_, a⟩ => a

def Map.values : Map → Schema
  | ⟨v, _⟩ => v

def Map.attributes : Map → Attributes
  | ⟨_, a⟩ => a

/-! ## Shared decoding helpers (the non-recursive serde field decoders) -/

/-- A required `&str` field: present, and a JSON string. -/
def reqString : Option Json → Option String
  | some (.str s) => some s
  | _ => none

/-- An `Option<&'a str>` field with `#[serde(default)]`: an absent key or an
explicit JSON `null` decode to `none`; a JSON string decodes to `some`;
any other JSON value is a type error. -/
def decodeOptStr (kvs : List (String × Json)) (k : String) :
    Option (Option String) :=
  match lookupJ k kvs with
  | none => some none
  | some .null => some none
  | some (.str s) => some (some s)
  | some _ => none

/-- Decode a JSON array of strings (`Vec<&str>`). -/
def asStringList : List Json → Option (List String)
  | [] => some []
  | .str s :: rest => (asStringList rest).map fun l => s :: l
  | _ => none

/-- The `aliases` field: `#[serde(default)]` `Vec<&str>` — an absent key
yields the empty list, a present key must be an array of strings (an
explicit `null` is a type error: serde's `default` applies only to absent
keys). -/
def decodeAliases (kvs : List (String × Json)) : Option (List String) :=
  match lookupJ "aliases" kvs with
  | none => some []
  | some (.arr l) => asStringList l
  | some _ => none

/-- Decode the flattened `Attributes` from the entries not consumed by the
owning struct: `"logicalType"` is promoted into the dedicated slot and
removed; every other entry stays in the open mapping verbatim. -/
def decodeAttrs (rest : List (String × Json)) : Option Attributes :=
  (decodeOptStr rest "logicalType").map fun lt =>
    ⟨lt, removeKeys ["logicalType"] rest⟩

/-- Decode a JSON object's entries as `Type` (here `AType`): the `"type"`
key must hold a string (the only JSON shape `TypeName` accepts), and the
remaining entries flatten into `Attributes`. -/
def decodeAType (kvs : List (String × Json)) : Option AType :=
  match lookupJ "type" kvs with
  | some (.str s) =>
    (decodeAttrs (removeKeys ["type"] kvs)).map fun attrs =>
      ⟨parseTypeName s, attrs⟩
  | _ => none

/-- The structural keys of a `Record` object (the internally-tagged `type`
plus the named struct fields), which serde never hands to `flatten`. -/
def recordKeys : List String := ["type", "name", "namespace", "doc", "aliases", "fields"]

/-- The structural keys of an `Enum` object. -/
def enumKeys : List String :=
  ["type", "name", "namespace", "doc", "aliases", "symbols", "default"]

/-- The structural keys of a `Fixed` object. -/
def fixedKeys : List String := ["type", "name", "namespace", "aliases", "size"]

/-- The structural keys of an `Array` object. -/
def arrayKeys : List String := ["type", "items"]

/-- The structural keys of a `Map` object. -/
def mapKeys : List String := ["type", "values"]

/-- Decode the payload of an `{"type":"enum", ...}` object. -/
def decodeEnum (kvs : List (String × Json)) : Option Enum :=
  (reqString (lookupJ "name" kvs)).bind fun nm =>
  (decodeOptStr kvs "namespace").bind fun ns =>
  (decodeOptStr kvs "doc").bind fun doc =>
  (decodeAliases kvs).bind fun al =>
  (match lookupJ "symbols" kvs with
   | some (.arr l) => asStringList l
   | _ => none).bind fun syms =>
  (decodeOptStr kvs "default").bind fun df =>
  (decodeAttrs (removeKeys enumKeys kvs)).map fun attrs =>
  Enum.mk nm ns doc al syms df attrs

/-- Decode the payload of an `{"type":"fixed", ...}` object; `size` must be
a non-negative JSON integer (`usize`). -/
def decodeFixed (kvs : List (String × Json)) : Option Fixed :=
  (reqString (lookupJ "name" kvs)).bind fun nm =>
  (decodeOptStr kvs "namespace").bind fun ns =>
  (decodeAliases kvs).bind fun al =>
  (match lookupJ "size" kvs with
   | some (.num n) => if 0 ≤ n then some n.toNat else none
   | _ => none).bind fun sz =>
  (decodeAttrs (removeKeys fixedKeys kvs)).map fun attrs =>
  Fixed.mk nm ns al sz attrs

/-! ## The recursive decoders

`serde_json::from_str::<Schema>` on the JSON value tree.  `Schema`'s
`#[serde(untagged)]` derive buffers the value and tries the variants in
declaration order, keeping the first success: a JSON string always succeeds
as `TypeName`; a JSON array succeeds as `Union` iff every element decodes;
a JSON object is tried as `Complex` (tag dispatch on `"type"`) and, if that
fails for any reason, as `Type`; everything else fails. -/

theorem lookupJ_sizeOf {k : String} : ∀ {kvs : List (String × Json)} {v : Json},
    lookupJ k kvs = some v → sizeOf v < sizeOf kvs := by
  intro kvs
  induction kvs with
  | nil => intro v h; simp [lookupJ] at h
  | cons e rest ih =>
    intro v h
    obtain ⟨k', v'⟩ := e
    simp only [lookupJ] at h
    by_cases hk : k' = k
    · simp [hk] at h; subst h; simp; omega
    · simp [hk] at h; have := ih h; simp; omega

mutual

/-- Decode one JSON value as a `Schema` (the untagged four-way dispatch). -/
def decodeSchema : Json → Option Schema
  | .null => none
  | .bool _ => none
  | .num _ => none
  | .str s => some (.typeName (parseTypeName s))
  | .arr l => (decodeSchemaList l).map Schema.union
  | .obj kvs =>
    match decodeComplex kvs with
    | some c => some (.complex c)
    | none => (decodeAType kvs).map Schema.attrType
termination_by j => (sizeOf j, 4)
decreasing_by
  all_goals (apply Prod.Lex.left; simp; try omega)

/-- Decode every element of a JSON array as a `Schema`, in order
(`Vec<Schema>`). -/
def decodeSchemaList : List Json → Option (List Schema)
  | [] => some []
  | j :: rest =>
    (decodeSchema j).bind fun s =>
    (decodeSchemaList rest).map fun l => s :: l
termination_by l => (sizeOf l, 0)
decreasing_by
  all_goals (apply Prod.Lex.left; simp; try omega)

/-- The internally-tagged `ComplexType` decode: the `"type"` key must hold
one of the five tag words, and the matching payload parser must succeed on
the object. -/
def decodeComplex (kvs : List (String × Json)) : Option ComplexType :=
  match lookupJ "type" kvs with
  | some (.str t) =>
    if t = "record" then Option.map ComplexType.record (decodeRecord kvs)
    else if t = "enum" then Option.map ComplexType.enum (decodeEnum kvs)
    else if t = "array" then Option.map ComplexType.array (decodeArray kvs)
    else if t = "map" then Option.map ComplexType.map (decodeMap kvs)
    else if t = "fixed" then Option.map ComplexType.fixed (decodeFixed kvs)
    else none
  | _ => none
termination_by (sizeOf kvs, 3)
decreasing_by
  all_goals (apply Prod.Lex.right; omega)

/-- Decode the payload of an `{"type":"record", ...}` object. -/
def decodeRecord (kvs : List (String × Json)) : Option Record :=
  (reqString (lookupJ "name" kvs)).bind fun nm =>
  (decodeOptStr kvs "namespace").bind fun ns =>
  (decodeOptStr kvs "doc").bind fun doc =>
  (decodeAliases kvs).bind fun al =>
  (decodeFields kvs).bind fun fs =>
  (decodeAttrs (removeKeys recordKeys kvs)).map fun attrs =>
  Record.mk nm ns doc al fs attrs
termination_by (sizeOf kvs, 2)
decreasing_by
  all_goals (apply Prod.Lex.right; omega)

/-- The required `fields` key of a record: an array of field objects. -/
def decodeFields (kvs : List (String × Json)) : Option (List Field) :=
  match h : lookupJ "fields" kvs with
  | some (.arr l) => decodeFieldList l
  | _ => none
termination_by (sizeOf kvs, 1)
decreasing_by
  all_goals (apply Prod.Lex.left; have := lookupJ_sizeOf h; simp at this ⊢; omega)

/-- Decode every element of a `fields` array, in order (`Vec<Field>`). -/
def decodeFieldList : List Json → Option (List Field)
  | [] => some []
  | j :: rest =>
    (decodeField j).bind fun f =>
    (decodeFieldList rest).map fun l => f :: l
termination_by l => (sizeOf l, 0)
decreasing_by
  all_goals (apply Prod.Lex.left; simp; try omega)

/-- Decode one `Field` object: required `name` and `type` (a full nested
`Schema`), optional `doc` and `default`; other keys are ignored (`Field`
has no flatten bag). -/
def decodeField : Json → Option Field
  | .obj fkvs =>
    (reqString (lookupJ "name" fkvs)).bind fun nm =>
    (decodeOptStr fkvs "doc").bind fun doc =>
    (match h : lookupJ "type" fkvs with
     | some v => decodeSchema v
     | none => none).bind fun ty =>
    (decodeOptStr fkvs "default").map fun df =>
    Field.mk nm doc ty df
  | _ => none
termination_by j => (sizeOf j, 4)
decreasing_by
  all_goals (apply Prod.Lex.left; have := lookupJ_sizeOf h; simp at this ⊢; omega)

/-- Decode the payload of an `{"type":"array", ...}` object: the required
`items` key holds the nested item schema. -/
def decodeArray (kvs : List (String × Json)) : Option Array :=
  (match h : lookupJ "items" kvs with
   | some v => decodeSchema v
   | none => none).bind fun items =>
  (decodeAttrs (removeKeys arrayKeys kvs)).map fun attrs =>
  Array.mk items attrs
termination_by (sizeOf kvs, 2)
decreasing_by
  all_goals (apply Prod.Lex.left; have := lookupJ_sizeOf h; simp at this ⊢; omega)

/-- Decode the payload of an `{"type":"map", ...}` object: the required
`values` key holds the nested value schema. -/
def decodeMap (kvs : List (String × Json)) : Option Map :=
  (match h : lookupJ "values" kvs with
   | some v => decodeSchema v
   | none => none).bind fun vals =>
  (decodeAttrs (removeKeys mapKeys kvs)).map fun attrs =>
  Map.mk vals attrs
termination_by (sizeOf kvs, 2)
decreasing_by
  all_goals (apply Prod.Lex.left; have := lookupJ_sizeOf h; simp at this ⊢; omega)

end

/-! ## The encoders

The serde `Serialize` derives: a struct serializes its named fields in
declaration order and then its `#[serde(flatten)]` field inline;
`Option::None` serializes as JSON `null` (no `skip_serializing_if` in the
source); the internally-tagged `ComplexType` emits the `"type"` tag first. -/

/-- An `Option<&str>` serializes as `null` or the string. -/
def encodeOptStr : Option String → Json
  | none => .null
  | some s => .str s

/-- `Attributes` flatten back as `"logicalType"` followed by the open
mapping's entries. -/
def encodeAttrsFields (a : Attributes) : List (String × Json) :=
  ("logicalType", encodeOptStr a.logicalType) :: a.additional

/-- The entries of a serialized `Enum` payload, in field declaration
order. -/
def encodeEnumFields (e : Enum) : List (String × Json) :=
  ("name", .str e.name) :: ("namespace", encodeOptStr e.nspace) ::
  ("doc", encodeOptStr e.doc) :: ("aliases", .arr (e.aliases.map Json.str)) ::
  ("symbols", .arr (e.symbols.map Json.str)) ::
  ("default", encodeOptStr e.default) :: encodeAttrsFields e.attributes

/-- The entries of a serialized `Fixed` payload, in field declaration
order. -/
def encodeFixedFields (f : Fixed) : List (String × Json) :=
  ("name", .str f.name) :: ("namespace", encodeOptStr f.nspace) ::
  ("aliases", .arr (f.aliases.map Json.str)) ::
  ("size", .num (Int.ofNat f.size)) :: encodeAttrsFields f.attributes

mutual

/-- Serialize a `Schema` back to a JSON value (the untagged enum serializes
as whichever variant it holds). -/
def encodeSchema : Schema → Json
  | .typeName t => .str (encodeTypeName t)
  | .union xs => .arr (encodeSchemaList xs)
  | .complex c => .obj (encodeComplexFields c)
  | .attrType t =>
    .obj (("type", .str (encodeTypeName t.type)) ::
      encodeAttrsFields t.attributes)

def encodeSchemaList : List Schema → List Json
  | [] => []
  | s :: rest => encodeSchema s :: encodeSchemaList rest

/-- The entries of a serialized `ComplexType`: the `"type"` tag first, then
the payload's fields. -/
def encodeComplexFields : ComplexType → List (String × Json)
  | .record r => ("type", .str "record") :: encodeRecordFields r
  | .enum e => ("type", .str "enum") :: encodeEnumFields e
  | .array a => ("type", .str "array") :: encodeArrayFields a
  | .map m => ("type", .str "map") :: encodeMapFields m
  | .fixed f => ("type", .str "fixed") :: encodeFixedFields f

/-- The entries of a serialized `Record` payload, in field declaration
order, the flattened attributes last. -/
def encodeRecordFields : Record → List (String × Json)
  | ⟨nm, ns, doc, al, fs, attrs⟩ =>
    ("name", .str nm) :: ("namespace", encodeOptStr ns) ::
    ("doc", encodeOptStr doc) :: ("aliases", .arr (al.map Json.str)) ::
    ("fields", .arr (encodeFieldList fs)) :: encodeAttrsFields attrs

def encodeFieldList : List Field → List Json
  | [] => []
  | f :: rest => encodeField f :: encodeFieldList rest

/-- A serialized `Field` object: exactly the four declared fields. -/
def encodeField : Field → Json
  | ⟨nm, doc, ty, df⟩ =>
    .obj [("name", .str nm), ("doc", encodeOptStr doc),
      ("type", encodeSchema ty), ("default", encodeOptStr df)]

/-- The entries of a serialized `Array` payload. -/
def encodeArrayFields : Array → List (String × Json)
  | ⟨items, attrs⟩ =>
    ("items", encodeSchema items) :: encodeAttrsFields attrs

/-- The entries of a serialized `Map` payload. -/
def encodeMapFields : Map → List (String × Json)
  | ⟨vals, attrs⟩ =>
    ("values", encodeSchema vals) :: encodeAttrsFields attrs

end

/-! ## Lemmas about object-entry lists -/

theorem lookupJ_cons (k k' : String) (v : Json) (rest : List (String × Json)) :
    lookupJ k ((k', v) :: rest) = if k' = k then some v else lookupJ k rest := rfl

theorem removeKeys_cons (ks : List String) (k : String) (v : Json)
    (rest : List (String × Json)) :
    removeKeys ks ((k, v) :: rest) =
      if ks.contains k then removeKeys ks rest
      else (k, v) :: removeKeys ks rest := by
  simp only [removeKeys, List.filter_cons]
  cases h : ks.contains k <;> simp [h]

theorem lookupJ_removeKeys {ks : List String} {k : String}
    (h : ks.contains k = false) (kvs : List (String × Json)) :
    lookupJ k (removeKeys ks kvs) = lookupJ k kvs := by
  induction kvs with
  | nil => rfl
  | cons e rest ih =>
    obtain ⟨k', v⟩ := e
    rw [removeKeys_cons]
    cases hks : ks.contains k' with
    | true =>
      by_cases hk : k' = k
      · subst hk
        rw [hks] at h
        cases h
      · rw [if_pos rfl, ih, lookupJ_cons, if_neg hk]
    | false =>
      rw [if_neg (by simp), lookupJ_cons, lookupJ_cons, ih]

theorem removeKeys_removeKeys (ks₁ ks₂ : List String)
    (kvs : List (String × Json)) :
    removeKeys ks₂ (removeKeys ks₁ kvs) = removeKeys (ks₁ ++ ks₂) kvs := by
  simp only [removeKeys, List.filter_filter]
  apply List.filter_congr
  intro e _
  by_cases h1 : e.fst ∈ ks₁ <;> by_cases h2 : e.fst ∈ ks₂ <;> simp [h1, h2]

theorem removeKeys_subset {ks ks₂ : List String}
    (h : ∀ k, ks.contains k = true → ks₂.contains k = true)
    (kvs : List (String × Json)) :
    removeKeys ks (removeKeys ks₂ kvs) = removeKeys ks₂ kvs := by
  rw [removeKeys, List.filter_eq_self]
  intro e he
  rw [removeKeys] at he
  have := List.of_mem_filter he
  cases hk : ks.contains e.fst
  · rfl
  · rw [h _ hk] at this
    simp at this

/-! ## Pointwise round-trip lemmas for the non-recursive pieces -/

theorem encode_parseTypeName (s : String) :
    encodeTypeName (parseTypeName s) = s := by
  rw [parseTypeName]
  split_ifs with h1 h2 h3 h4 h5 h6 h7 h8 <;>
    simp_all [encodeTypeName, primitiveWord]

theorem decodeOptStr_of_lookup {kvs : List (String × Json)} {k : String}
    {o : Option String} (h : lookupJ k kvs = some (encodeOptStr o)) :
    decodeOptStr kvs k = some o := by
  cases o <;> simp_all [decodeOptStr, encodeOptStr]

theorem decodeOptStr_congr {kvs₁ kvs₂ : List (String × Json)} {k : String}
    (h : lookupJ k kvs₁ = lookupJ k kvs₂) :
    decodeOptStr kvs₁ k = decodeOptStr kvs₂ k := by
  rw [decodeOptStr, decodeOptStr, h]

theorem asStringList_map (l : List String) :
    asStringList (l.map Json.str) = some l := by
  induction l with
  | nil => rfl
  | cons s rest ih => simp [asStringList, ih]

theorem decodeAliases_congr {kvs₁ kvs₂ : List (String × Json)}
    (h : lookupJ "aliases" kvs₁ = lookupJ "aliases" kvs₂) :
    decodeAliases kvs₁ = decodeAliases kvs₂ := by
  rw [decodeAliases, decodeAliases, h]

theorem decodeAttrs_eq_some {rest : List (String × Json)} {a : Attributes} :
    decodeAttrs rest = some a ↔
      decodeOptStr rest "logicalType" = some a.logicalType ∧
      a.additional = removeKeys ["logicalType"] rest := by
  constructor
  · intro h
    simp only [decodeAttrs, Option.map_eq_some'] at h
    obtain ⟨lt, hlt, rfl⟩ := h
    exact ⟨hlt, rfl⟩
  · intro ⟨h1, h2⟩
    obtain ⟨lt, add⟩ := a
    simp at h1 h2
    simp [decodeAttrs, h1, h2]

theorem decodeAttrs_encode {rest : List (String × Json)} {a : Attributes}
    (h : decodeAttrs rest = some a) :
    decodeAttrs (encodeAttrsFields a) = some a := by
  rw [decodeAttrs_eq_some] at h
  obtain ⟨h1, h2⟩ := h
  rw [decodeAttrs_eq_some]
  constructor
  · apply decodeOptStr_of_lookup
    simp [encodeAttrsFields, lookupJ]
  · rw [encodeAttrsFields, removeKeys_cons]
    simp only [List.contains_cons]
    simp only [beq_self_eq_true, Bool.true_or, if_true]
    rw [h2, removeKeys_subset (fun k hk => hk)]

theorem decodeAttrs_congr {rest₁ rest₂ : List (String × Json)}
    (h1 : lookupJ "logicalType" rest₁ = lookupJ "logicalType" rest₂)
    (h2 : removeKeys ["logicalType"] rest₁ = removeKeys ["logicalType"] rest₂) :
    decodeAttrs rest₁ = decodeAttrs rest₂ := by
  rw [decodeAttrs, decodeAttrs, decodeOptStr_congr h1, h2]

/-! ## Characterization lemmas for the recursive decoders -/

theorem decodeSchema_str (s : String) :
    decodeSchema (.str s) = some (.typeName (parseTypeName s)) := by
  rw [decodeSchema]

theorem decodeSchema_arr (l : List Json) :
    decodeSchema (.arr l) = (decodeSchemaList l).map Schema.union := by
  rw [decodeSchema]

theorem decodeSchema_obj (kvs : List (String × Json)) :
    decodeSchema (.obj kvs) =
      match decodeComplex kvs with
      | some c => some (.complex c)
      | none => (decodeAType kvs).map Schema.attrType := by
  rw [decodeSchema]

theorem decodeSchemaList_nil : decodeSchemaList [] = some [] := by
  rw [decodeSchemaList]

theorem decodeSchemaList_cons (j : Json) (rest : List Json) :
    decodeSchemaList (j :: rest) =
      (decodeSchema j).bind fun s =>
      (decodeSchemaList rest).map fun l => s :: l := by
  rw [decodeSchemaList]

theorem decodeComplex_eq (kvs : List (String × Json)) :
    decodeComplex kvs =
      match lookupJ "type" kvs with
      | some (.str t) =>
        if t = "record" then Option.map ComplexType.record (decodeRecord kvs)
        else if t = "enum" then Option.map ComplexType.enum (decodeEnum kvs)
        else if t = "array" then Option.map ComplexType.array (decodeArray kvs)
        else if t = "map" then Option.map ComplexType.map (decodeMap kvs)
        else if t = "fixed" then Option.map ComplexType.fixed (decodeFixed kvs)
        else none
      | _ => none := by
  rw [decodeComplex]

theorem decodeRecord_eq (kvs : List (String × Json)) :
    decodeRecord kvs =
      (reqString (lookupJ "name" kvs)).bind fun nm =>
      (decodeOptStr kvs "namespace").bind fun ns =>
      (decodeOptStr kvs "doc").bind fun doc =>
      (decodeAliases kvs).bind fun al =>
      (decodeFields kvs).bind fun fs =>
      (decodeAttrs (removeKeys recordKeys kvs)).map fun attrs =>
      Record.mk nm ns doc al fs attrs := by
  rw [decodeRecord]

theorem decodeFields_eq (kvs : List (String × Json)) :
    decodeFields kvs =
      match lookupJ "fields" kvs with
      | some (.arr l) => decodeFieldList l
      | _ => none := by
  rw [decodeFields]
  cases hv : lookupJ "fields" kvs with
  | none => rfl
  | some v => cases v <;> rfl

theorem decodeFieldList_nil : decodeFieldList [] = some [] := by
  rw [decodeFieldList]

theorem decodeFieldList_cons (j : Json) (rest : List Json) :
    decodeFieldList (j :: rest) =
      (decodeField j).bind fun f =>
      (decodeFieldList rest).map fun l => f :: l := by
  rw [decodeFieldList]

theorem decodeField_obj (fkvs : List (String × Json)) :
    decodeField (.obj fkvs) =
      (reqString (lookupJ "name" fkvs)).bind fun nm =>
      (decodeOptStr fkvs "doc").bind fun doc =>
      (match lookupJ "type" fkvs with
       | some v => decodeSchema v
       | none => none).bind fun ty =>
      (decodeOptStr fkvs "default").map fun df =>
      Field.mk nm doc ty df := by
  rw [decodeField]
  cases hv : lookupJ "type" fkvs <;> rfl

theorem decodeArray_eq (kvs : List (String × Json)) :
    decodeArray kvs =
      (match lookupJ "items" kvs with
       | some v => decodeSchema v
       | none => none).bind fun items =>
      (decodeAttrs (removeKeys arrayKeys kvs)).map fun attrs =>
      Array.mk items attrs := by
  rw [decodeArray]
  cases hv : lookupJ "items" kvs <;> rfl

theorem decodeMap_eq (kvs : List (String × Json)) :
    decodeMap kvs =
      (match lookupJ "values" kvs with
       | some v => decodeSchema v
       | none => none).bind fun vals =>
      (decodeAttrs (removeKeys mapKeys kvs)).map fun attrs =>
      Map.mk vals attrs := by
  rw [decodeMap]
  cases hv : lookupJ "values" kvs <;> rfl

/-! ## Congruence: each object decoder depends only on the key lookups it
performs (and, through the flattened attributes, on the residual entry
list).  These lemmas let us transport a decode result — in particular a
decode *failure* — between two objects that agree on those projections. -/

theorem removeKeys_congr {ks₁ ks₂ : List String}
    (h : ∀ k, ks₁.contains k = ks₂.contains k) (kvs : List (String × Json)) :
    removeKeys ks₁ kvs = removeKeys ks₂ kvs := by
  apply List.filter_congr
  intro e _
  rw [h]

theorem decodeAttrs_congr' {rest₁ rest₂ : List (String × Json)}
    (h1 : decodeOptStr rest₁ "logicalType" = decodeOptStr rest₂ "logicalType")
    (h2 : removeKeys ["logicalType"] rest₁ = removeKeys ["logicalType"] rest₂) :
    decodeAttrs rest₁ = decodeAttrs rest₂ := by
  rw [decodeAttrs, decodeAttrs, h1, h2]

theorem decodeFields_congr {kvs₁ kvs₂ : List (String × Json)}
    (h : lookupJ "fields" kvs₁ = lookupJ "fields" kvs₂) :
    decodeFields kvs₁ = decodeFields kvs₂ := by
  rw [decodeFields_eq, decodeFields_eq, h]

theorem decodeRecord_ext {kvs₁ kvs₂ : List (String × Json)}
    (hname : lookupJ "name" kvs₁ = lookupJ "name" kvs₂)
    (hns : lookupJ "namespace" kvs₁ = lookupJ "namespace" kvs₂)
    (hdoc : lookupJ "doc" kvs₁ = lookupJ "doc" kvs₂)
    (hal : lookupJ "aliases" kvs₁ = lookupJ "aliases" kvs₂)
    (hfl : lookupJ "fields" kvs₁ = lookupJ "fields" kvs₂)
    (hat : decodeAttrs (removeKeys recordKeys kvs₁) =
      decodeAttrs (removeKeys recordKeys kvs₂)) :
    decodeRecord kvs₁ = decodeRecord kvs₂ := by
  rw [decodeRecord_eq, decodeRecord_eq, hname, decodeOptStr_congr hns,
    decodeOptStr_congr hdoc, decodeAliases_congr hal, decodeFields_congr hfl,
    hat]

theorem decodeEnum_ext {kvs₁ kvs₂ : List (String × Json)}
    (hname : lookupJ "name" kvs₁ = lookupJ "name" kvs₂)
    (hns : lookupJ "namespace" kvs₁ = lookupJ "namespace" kvs₂)
    (hdoc : lookupJ "doc" kvs₁ = lookupJ "doc" kvs₂)
    (hal : lookupJ "aliases" kvs₁ = lookupJ "aliases" kvs₂)
    (hsym : lookupJ "symbols" kvs₁ = lookupJ "symbols" kvs₂)
    (hdf : lookupJ "default" kvs₁ = lookupJ "default" kvs₂)
    (hat : decodeAttrs (removeKeys enumKeys kvs₁) =
      decodeAttrs (removeKeys enumKeys kvs₂)) :
    decodeEnum kvs₁ = decodeEnum kvs₂ := by
  rw [decodeEnum, decodeEnum, hname, decodeOptStr_congr hns,
    decodeOptStr_congr hdoc, decodeAliases_congr hal, hsym,
    decodeOptStr_congr hdf, hat]

theorem decodeFixed_ext {kvs₁ kvs₂ : List (String × Json)}
    (hname : lookupJ "name" kvs₁ = lookupJ "name" kvs₂)
    (hns : lookupJ "namespace" kvs₁ = lookupJ "namespace" kvs₂)
    (hal : lookupJ "aliases" kvs₁ = lookupJ "aliases" kvs₂)
    (hsz : lookupJ "size" kvs₁ = lookupJ "size" kvs₂)
    (hat : decodeAttrs (removeKeys fixedKeys kvs₁) =
      decodeAttrs (removeKeys fixedKeys kvs₂)) :
    decodeFixed kvs₁ = decodeFixed kvs₂ := by
  rw [decodeFixed, decodeFixed, hname, decodeOptStr_congr hns,
    decodeAliases_congr hal, hsz, hat]

theorem decodeArray_ext {kvs₁ kvs₂ : List (String × Json)}
    (hit : lookupJ "items" kvs₁ = lookupJ "items" kvs₂)
    (hat : decodeAttrs (removeKeys arrayKeys kvs₁) =
      decodeAttrs (removeKeys arrayKeys kvs₂)) :
    decodeArray kvs₁ = decodeArray kvs₂ := by
  rw [decodeArray_eq, decodeArray_eq, hit, hat]

theorem decodeMap_ext {kvs₁ kvs₂ : List (String × Json)}
    (hv : lookupJ "values" kvs₁ = lookupJ "values" kvs₂)
    (hat : decodeAttrs (removeKeys mapKeys kvs₁) =
      decodeAttrs (removeKeys mapKeys kvs₂)) :
    decodeMap kvs₁ = decodeMap kvs₂ := by
  rw [decodeMap_eq, decodeMap_eq, hv, hat]

theorem decodeComplex_ext {kvs₁ kvs₂ : List (String × Json)}
    (hty : lookupJ "type" kvs₁ = lookupJ "type" kvs₂)
    (hlook : ∀ k, k ≠ "type" → k ≠ "logicalType" →
      lookupJ k kvs₁ = lookupJ k kvs₂)
    (hattr : ∀ ks : List String, ks.contains "type" = true →
      ks.contains "logicalType" = false →
      decodeAttrs (removeKeys ks kvs₁) = decodeAttrs (removeKeys ks kvs₂)) :
    decodeComplex kvs₁ = decodeComplex kvs₂ := by
  have hrec := @decodeRecord_ext kvs₁ kvs₂
    (hlook "name" (by decide) (by decide))
    (hlook "namespace" (by decide) (by decide))
    (hlook "doc" (by decide) (by decide))
    (hlook "aliases" (by decide) (by decide))
    (hlook "fields" (by decide) (by decide))
    (hattr recordKeys (by decide) (by decide))
  have henum := @decodeEnum_ext kvs₁ kvs₂
    (hlook "name" (by decide) (by decide))
    (hlook "namespace" (by decide) (by decide))
    (hlook "doc" (by decide) (by decide))
    (hlook "aliases" (by decide) (by decide))
    (hlook "symbols" (by decide) (by decide))
    (hlook "default" (by decide) (by decide))
    (hattr enumKeys (by decide) (by decide))
  have hfix := @decodeFixed_ext kvs₁ kvs₂
    (hlook "name" (by decide) (by decide))
    (hlook "namespace" (by decide) (by decide))
    (hlook "aliases" (by decide) (by decide))
    (hlook "size" (by decide) (by decide))
    (hattr fixedKeys (by decide) (by decide))
  have harr := @decodeArray_ext kvs₁ kvs₂
    (hlook "items" (by decide) (by decide))
    (hattr arrayKeys (by decide) (by decide))
  have hmap := @decodeMap_ext kvs₁ kvs₂
    (hlook "values" (by decide) (by decide))
    (hattr mapKeys (by decide) (by decide))
  rw [decodeComplex_eq, decodeComplex_eq, hty, hrec, henum, hfix, harr, hmap]

/-! ## Round-trip building blocks -/

theorem decodeAType_some_inv {kvs : List (String × Json)} {t : AType}
    (ht : decodeAType kvs = some t) :
    ∃ s, lookupJ "type" kvs = some (.str s) ∧
      decodeAttrs (removeKeys ["type"] kvs) = some t.attributes ∧
      t.type = parseTypeName s := by
  unfold decodeAType at ht
  cases hv : lookupJ "type" kvs with
  | none => rw [hv] at ht; cases ht
  | some v =>
    rw [hv] at ht
    cases v with
    | str s =>
      simp only [Option.map_eq_some'] at ht
      obtain ⟨attrs, hattrs, rfl⟩ := ht
      exact ⟨s, rfl, hattrs, rfl⟩
    | null => cases ht
    | bool b => cases ht
    | num n => cases ht
    | arr l => cases ht
    | obj o => cases ht

/-- The flattened-attribute entries of a re-encoded object survive a second
filtering by the owning struct's keys: the structural prefix is dropped
whole, `"logicalType"` is kept, and the open mapping is already free of the
structural keys. -/
theorem removeKeys_structural {ks : List String} {kvs : List (String × Json)}
    {a : Attributes} (pre : List (String × Json))
    (hpre : ∀ e ∈ pre, ks.contains e.fst = true)
    (hlt : ks.contains "logicalType" = false)
    (ha : decodeAttrs (removeKeys ks kvs) = some a) :
    removeKeys ks (pre ++ encodeAttrsFields a) = encodeAttrsFields a := by
  have hadd : removeKeys ks a.additional = a.additional := by
    rw [decodeAttrs_eq_some] at ha
    rw [ha.2, removeKeys_removeKeys ks ["logicalType"] kvs]
    apply removeKeys_subset
    intro k hk
    simp at hk ⊢
    exact Or.inl hk
  induction pre with
  | nil =>
    simp only [List.nil_append, encodeAttrsFields, removeKeys_cons, hlt]
    rw [if_neg (by simp), hadd]
  | cons e rest ih =>
    obtain ⟨k, v⟩ := e
    rw [List.cons_append, removeKeys_cons, hpre ⟨k, v⟩ (by simp), if_pos rfl]
    exact ih fun e he => hpre e (by simp [he])

theorem decodeAttrs_from_lookup {kvs : List (String × Json)}
    {ks : List String} {a : Attributes}
    (hlt : ks.contains "logicalType" = false)
    (ha : decodeAttrs (removeKeys ks kvs) = some a) :
    decodeOptStr kvs "logicalType" = some a.logicalType := by
  rw [decodeAttrs_eq_some] at ha
  rw [← ha.1]
  exact decodeOptStr_congr (lookupJ_removeKeys hlt kvs).symm

/-- Re-encoding an `AType` and running the internally-tagged `ComplexType`
decoder on it gives the same result as running it on the original object:
the tag is unchanged and every projection the payload parsers consult is
unchanged. -/
theorem decodeComplex_encodeAType {kvs : List (String × Json)} {t : AType}
    (ht : decodeAType kvs = some t) :
    decodeComplex (("type", .str (encodeTypeName t.type)) ::
      encodeAttrsFields t.attributes) = decodeComplex kvs := by
  obtain ⟨s, hv, hattrs, htype⟩ := decodeAType_some_inv ht
  have hadd : t.attributes.additional = removeKeys ["type", "logicalType"] kvs := by
    rw [decodeAttrs_eq_some] at hattrs
    rw [hattrs.2, removeKeys_removeKeys]
    rfl
  have hlt0 : decodeOptStr kvs "logicalType" = some t.attributes.logicalType :=
    decodeAttrs_from_lookup (by decide) hattrs
  apply decodeComplex_ext
  · rw [hv, htype, encode_parseTypeName]
    simp [lookupJ]
  · intro k hk1 hk2
    rw [lookupJ_cons, if_neg (fun h => hk1 h.symm), encodeAttrsFields,
      lookupJ_cons, if_neg (fun h => hk2 h.symm), hadd]
    exact lookupJ_removeKeys (by simp [hk1, hk2]) kvs
  · intro ks hty hlt
    apply decodeAttrs_congr'
    · have h1 : decodeOptStr (removeKeys ks (("type", .str (encodeTypeName t.type)) ::
          encodeAttrsFields t.attributes)) "logicalType" =
          some t.attributes.logicalType := by
        rw [removeKeys_cons, hty, if_pos rfl, encodeAttrsFields,
          removeKeys_cons, hlt, if_neg (by simp)]
        apply decodeOptStr_of_lookup
        simp [lookupJ]
      rw [h1]
      rw [decodeOptStr_congr (lookupJ_removeKeys hlt kvs), hlt0]
    · rw [removeKeys_cons, hty, if_pos rfl, encodeAttrsFields,
        removeKeys_cons, hlt, if_neg (by simp)]
      rw [removeKeys_cons]
      simp only [List.contains_cons, beq_self_eq_true, Bool.true_or, if_pos rfl]
      rw [removeKeys_removeKeys, hadd, removeKeys_removeKeys,
        removeKeys_removeKeys]
      apply removeKeys_congr
      intro k
      have hty' : "type" ∈ ks := by simpa using hty
      by_cases h1 : k ∈ ks <;> by_cases h2 : k = "type" <;>
        by_cases h3 : k = "logicalType" <;> simp_all

theorem decodeAType_of_lookup {kvs : List (String × Json)} {s : String}
    (h : lookupJ "type" kvs = some (.str s)) :
    decodeAType kvs = (decodeAttrs (removeKeys ["type"] kvs)).map
      fun attrs => ⟨parseTypeName s, attrs⟩ := by
  unfold decodeAType
  rw [h]

/-- Re-encoding a decoded `AType` decodes back to it. -/
theorem decodeAType_encode {kvs : List (String × Json)} {t : AType}
    (ht : decodeAType kvs = some t) :
    decodeAType (("type", .str (encodeTypeName t.type)) ::
      encodeAttrsFields t.attributes) = some t := by
  obtain ⟨s, hv, hattrs, htype⟩ := decodeAType_some_inv ht
  have hrm : removeKeys ["type"] (("type", Json.str (encodeTypeName t.type)) ::
      encodeAttrsFields t.attributes) = encodeAttrsFields t.attributes := by
    have h := @removeKeys_structural ["type"] kvs t.attributes
      [("type", Json.str (encodeTypeName t.type))]
      (by intro e he; simp at he; simp [he]) (by decide) hattrs
    simpa using h
  have hl : lookupJ "type" (("type", Json.str (encodeTypeName t.type)) ::
      encodeAttrsFields t.attributes) = some (.str (encodeTypeName t.type)) := by
    rw [lookupJ_cons, if_pos rfl]
  have hpt : parseTypeName (encodeTypeName t.type) = t.type := by
    rw [htype, encode_parseTypeName]
  rw [decodeAType_of_lookup hl, hrm, decodeAttrs_encode hattrs,
    Option.map_some', hpt]

/-- Helper: invert a successful `decodeEnum` to extract the attribute
component (the only piece of the original object the re-encoded round trip
depends on). -/
theorem decodeEnum_attrs {kvs : List (String × Json)} {e : Enum}
    (h : decodeEnum kvs = some e) :
    decodeAttrs (removeKeys enumKeys kvs) = some e.attributes := by
  rw [decodeEnum] at h
  simp only [Option.bind_eq_some, Option.map_eq_some'] at h
  obtain ⟨nm, h1, ns, h2, doc, h3, al, h4, syms, h5, df, h6, attrs, h7, heq⟩ := h
  rw [← heq]
  exact h7

/-- Re-encoding a decoded `Enum` payload decodes back to it. -/
theorem decodeEnum_encode {kvs : List (String × Json)} {e : Enum}
    (h : decodeEnum kvs = some e) :
    decodeEnum (("type", .str "enum") :: encodeEnumFields e) = some e := by
  have h7 := decodeEnum_attrs h
  obtain ⟨nm, ns, doc, al, syms, df, attrs⟩ := e
  have hattr : decodeAttrs (removeKeys enumKeys
      (("type", Json.str "enum") :: encodeEnumFields ⟨nm, ns, doc, al, syms, df, attrs⟩)) =
      some attrs := by
    have hs := @removeKeys_structural enumKeys kvs attrs
      [("type", Json.str "enum"), ("name", Json.str nm),
       ("namespace", encodeOptStr ns), ("doc", encodeOptStr doc),
       ("aliases", Json.arr (al.map Json.str)),
       ("symbols", Json.arr (syms.map Json.str)),
       ("default", encodeOptStr df)]
      (by intro x hx; fin_cases hx <;> rfl) (by decide) h7
    have heq : (("type", Json.str "enum") ::
        encodeEnumFields ⟨nm, ns, doc, al, syms, df, attrs⟩) =
        [("type", Json.str "enum"), ("name", Json.str nm),
         ("namespace", encodeOptStr ns), ("doc", encodeOptStr doc),
         ("aliases", Json.arr (al.map Json.str)),
         ("symbols", Json.arr (syms.map Json.str)),
         ("default", encodeOptStr df)] ++
          encodeAttrsFields attrs := rfl
    rw [heq, hs]
    exact decodeAttrs_encode h7
  rw [decodeEnum]
  rw [show reqString (lookupJ "name" (("type", Json.str "enum") ::
      encodeEnumFields ⟨nm, ns, doc, al, syms, df, attrs⟩)) = some nm by
    simp [encodeEnumFields, lookupJ, reqString]]
  have hns : lookupJ "namespace" (("type", Json.str "enum") ::
      encodeEnumFields ⟨nm, ns, doc, al, syms, df, attrs⟩) =
      some (encodeOptStr ns) := by simp [encodeEnumFields, lookupJ]
  have hdoc : lookupJ "doc" (("type", Json.str "enum") ::
      encodeEnumFields ⟨nm, ns, doc, al, syms, df, attrs⟩) =
      some (encodeOptStr doc) := by simp [encodeEnumFields, lookupJ]
  rw [decodeOptStr_of_lookup hns]
  rw [decodeOptStr_of_lookup hdoc]
  rw [show decodeAliases (("type", Json.str "enum") ::
      encodeEnumFields ⟨nm, ns, doc, al, syms, df, attrs⟩) = some al by
    rw [decodeAliases]
    rw [show lookupJ "aliases" (("type", Json.str "enum") ::
        encodeEnumFields ⟨nm, ns, doc, al, syms, df, attrs⟩) =
        some (Json.arr (al.map Json.str)) by simp [encodeEnumFields, lookupJ]]
    exact asStringList_map al]
  rw [show lookupJ "symbols" (("type", Json.str "enum") ::
      encodeEnumFields ⟨nm, ns, doc, al, syms, df, attrs⟩) =
      some (Json.arr (syms.map Json.str)) by simp [encodeEnumFields, lookupJ]]
  have hdf : lookupJ "default" (("type", Json.str "enum") ::
      encodeEnumFields ⟨nm, ns, doc, al, syms, df, attrs⟩) =
      some (encodeOptStr df) := by simp [encodeEnumFields, lookupJ]
  rw [decodeOptStr_of_lookup hdf]
  rw [hattr]
  simp [asStringList_map]

/-- Helper: invert a successful `decodeFixed` to extract the attribute
component. -/
theorem decodeFixed_attrs {kvs : List (String × Json)} {f : Fixed}
    (h : decodeFixed kvs = some f) :
    decodeAttrs (removeKeys fixedKeys kvs) = some f.attributes := by
  rw [decodeFixed] at h
  simp only [Option.bind_eq_some, Option.map_eq_some'] at h
  obtain ⟨nm, h1, ns, h2, al, h3, sz, h4, attrs, h5, heq⟩ := h
  rw [← heq]
  exact h5

/-- Re-encoding a decoded `Fixed` payload decodes back to it. -/
theorem decodeFixed_encode {kvs : List (String × Json)} {f : Fixed}
    (h : decodeFixed kvs = some f) :
    decodeFixed (("type", .str "fixed") :: encodeFixedFields f) = some f := by
  have h5 := decodeFixed_attrs h
  obtain ⟨nm, ns, al, sz, attrs⟩ := f
  have hattr : decodeAttrs (removeKeys fixedKeys
      (("type", Json.str "fixed") :: encodeFixedFields ⟨nm, ns, al, sz, attrs⟩)) =
      some attrs := by
    have hs := @removeKeys_structural fixedKeys kvs attrs
      [("type", Json.str "fixed"), ("name", Json.str nm),
       ("namespace", encodeOptStr ns),
       ("aliases", Json.arr (al.map Json.str)),
       ("size", Json.num (Int.ofNat sz))]
      (by intro x hx; fin_cases hx <;> rfl) (by decide) h5
    rw [show (("type", Json.str "fixed") :: encodeFixedFields ⟨nm, ns, al, sz, attrs⟩) =
        [("type", Json.str "fixed"), ("name", Json.str nm),
         ("namespace", encodeOptStr ns),
         ("aliases", Json.arr (al.map Json.str)),
         ("size", Json.num (Int.ofNat sz))] ++ encodeAttrsFields attrs from rfl,
      hs]
    exact decodeAttrs_encode h5
  rw [decodeFixed]
  rw [show reqString (lookupJ "name" (("type", Json.str "fixed") ::
      encodeFixedFields ⟨nm, ns, al, sz, attrs⟩)) = some nm by
    simp [encodeFixedFields, lookupJ, reqString]]
  have hns : lookupJ "namespace" (("type", Json.str "fixed") ::
      encodeFixedFields ⟨nm, ns, al, sz, attrs⟩) =
      some (encodeOptStr ns) := by simp [encodeFixedFields, lookupJ]
  rw [decodeOptStr_of_lookup hns]
  rw [show decodeAliases (("type", Json.str "fixed") ::
      encodeFixedFields ⟨nm, ns, al, sz, attrs⟩) = some al by
    rw [decodeAliases]
    rw [show lookupJ "aliases" (("type", Json.str "fixed") ::
        encodeFixedFields ⟨nm, ns, al, sz, attrs⟩) =
        some (Json.arr (al.map Json.str)) by simp [encodeFixedFields, lookupJ]]
    exact asStringList_map al]
  rw [show lookupJ "size" (("type", Json.str "fixed") ::
      encodeFixedFields ⟨nm, ns, al, sz, attrs⟩) =
      some (Json.num (Int.ofNat sz)) by simp [encodeFixedFields, lookupJ]]
  rw [hattr]
  simp

/-- Helper: invert a successful `decodeRecord` to extract the attribute
component and the `fields` array. -/
theorem decodeRecord_inv {kvs : List (String × Json)} {r : Record}
    (h : decodeRecord kvs = some r) :
    decodeAttrs (removeKeys recordKeys kvs) = some r.attributes ∧
    ∃ l, lookupJ "fields" kvs = some (.arr l) ∧ decodeFieldList l = some r.fields := by
  rw [decodeRecord_eq] at h
  simp only [Option.bind_eq_some, Option.map_eq_some'] at h
  obtain ⟨nm, h1, ns, h2, doc, h3, al, h4, fs, h5, attrs, h6, heq⟩ := h
  rw [decodeFields_eq] at h5
  constructor
  · rw [← heq]; exact h6
  · cases hv : lookupJ "fields" kvs with
    | none => rw [hv] at h5; cases h5
    | some v =>
      rw [hv] at h5
      cases v with
      | arr l => exact ⟨l, rfl, by rw [← heq]; exact h5⟩
      | null => cases h5
      | bool b => cases h5
      | num n => cases h5
      | str s => cases h5
      | obj o => cases h5

/-- Re-encoding a decoded `Record` payload decodes back to it, given that
its (recursively encoded) field list round-trips. -/
theorem decodeRecord_encode {kvs : List (String × Json)} {r : Record}
    (h : decodeRecord kvs = some r)
    (hfl : decodeFieldList (encodeFieldList r.fields) = some r.fields) :
    decodeRecord (("type", .str "record") :: encodeRecordFields r) = some r := by
  obtain ⟨hat, -⟩ := decodeRecord_inv h
  obtain ⟨nm, ns, doc, al, fs, attrs⟩ := r
  simp only [Record.fields] at hfl
  simp only [Record.attributes] at hat
  have hattr : decodeAttrs (removeKeys recordKeys
      (("type", Json.str "record") :: encodeRecordFields ⟨nm, ns, doc, al, fs, attrs⟩)) =
      some attrs := by
    have hs := @removeKeys_structural recordKeys kvs attrs
      [("type", Json.str "record"), ("name", Json.str nm),
       ("namespace", encodeOptStr ns), ("doc", encodeOptStr doc),
       ("aliases", Json.arr (al.map Json.str)),
       ("fields", Json.arr (encodeFieldList fs))]
      (by intro x hx; fin_cases hx <;> rfl) (by decide) hat
    have heq : (("type", Json.str "record") ::
        encodeRecordFields ⟨nm, ns, doc, al, fs, attrs⟩) =
        [("type", Json.str "record"), ("name", Json.str nm),
         ("namespace", encodeOptStr ns), ("doc", encodeOptStr doc),
         ("aliases", Json.arr (al.map Json.str)),
         ("fields", Json.arr (encodeFieldList fs))] ++
          encodeAttrsFields attrs := rfl
    rw [heq, hs]
    exact decodeAttrs_encode hat
  rw [decodeRecord_eq]
  rw [show reqString (lookupJ "name" (("type", Json.str "record") ::
      encodeRecordFields ⟨nm, ns, doc, al, fs, attrs⟩)) = some nm by
    simp [encodeRecordFields, lookupJ, reqString]]
  have hns : lookupJ "namespace" (("type", Json.str "record") ::
      encodeRecordFields ⟨nm, ns, doc, al, fs, attrs⟩) =
      some (encodeOptStr ns) := by simp [encodeRecordFields, lookupJ]
  have hdoc : lookupJ "doc" (("type", Json.str "record") ::
      encodeRecordFields ⟨nm, ns, doc, al, fs, attrs⟩) =
      some (encodeOptStr doc) := by simp [encodeRecordFields, lookupJ]
  rw [decodeOptStr_of_lookup hns]
  rw [decodeOptStr_of_lookup hdoc]
  rw [show decodeAliases (("type", Json.str "record") ::
      encodeRecordFields ⟨nm, ns, doc, al, fs, attrs⟩) = some al by
    rw [decodeAliases]
    rw [show lookupJ "aliases" (("type", Json.str "record") ::
        encodeRecordFields ⟨nm, ns, doc, al, fs, attrs⟩) =
        some (Json.arr (al.map Json.str)) by simp [encodeRecordFields, lookupJ]]
    exact asStringList_map al]
  rw [show decodeFields (("type", Json.str "record") ::
      encodeRecordFields ⟨nm, ns, doc, al, fs, attrs⟩) = some fs by
    rw [decodeFields_eq]
    rw [show lookupJ "fields" (("type", Json.str "record") ::
        encodeRecordFields ⟨nm, ns, doc, al, fs, attrs⟩) =
        some (Json.arr (encodeFieldList fs)) by simp [encodeRecordFields, lookupJ]]
    exact hfl]
  rw [hattr]
  simp

/-- Helper: invert a successful `decodeArray`. -/
theorem decodeArray_inv {kvs : List (String × Json)} {a : Array}
    (h : decodeArray kvs = some a) :
    decodeAttrs (removeKeys arrayKeys kvs) = some a.attributes ∧
    ∃ v, lookupJ "items" kvs = some v ∧ decodeSchema v = some a.items := by
  rw [decodeArray_eq] at h
  simp only [Option.bind_eq_some, Option.map_eq_some'] at h
  obtain ⟨items, h1, attrs, h2, heq⟩ := h
  cases hv : lookupJ "items" kvs with
  | none => rw [hv] at h1; cases h1
  | some v =>
    rw [hv] at h1
    exact ⟨by rw [← heq]; exact h2, v, rfl, by rw [← heq]; exact h1⟩

/-- Re-encoding a decoded `Array` payload decodes back to it, given that
its (recursively encoded) item schema round-trips. -/
theorem decodeArray_encode {kvs : List (String × Json)} {a : Array}
    (h : decodeArray kvs = some a)
    (hit : decodeSchema (encodeSchema a.items) = some a.items) :
    decodeArray (("type", .str "array") :: encodeArrayFields a) = some a := by
  obtain ⟨hat, -⟩ := decodeArray_inv h
  obtain ⟨items, attrs⟩ := a
  simp only [Array.items] at hit
  simp only [Array.attributes] at hat
  have hattr : decodeAttrs (removeKeys arrayKeys
      (("type", Json.str "array") :: encodeArrayFields ⟨items, attrs⟩)) =
      some attrs := by
    have hs := @removeKeys_structural arrayKeys kvs attrs
      [("type", Json.str "array"), ("items", encodeSchema items)]
      (by intro x hx; fin_cases hx <;> rfl) (by decide) hat
    have heq : (("type", Json.str "array") :: encodeArrayFields ⟨items, attrs⟩) =
        [("type", Json.str "array"), ("items", encodeSchema items)] ++
          encodeAttrsFields attrs := rfl
    rw [heq, hs]
    exact decodeAttrs_encode hat
  rw [decodeArray_eq]
  rw [show lookupJ "items" (("type", Json.str "array") ::
      encodeArrayFields ⟨items, attrs⟩) = some (encodeSchema items) by
    simp [encodeArrayFields, lookupJ]]
  rw [hattr]
  simp [hit]

/-- Helper: invert a successful `decodeMap`. -/
theorem decodeMap_inv {kvs : List (String × Json)} {m : Map}
    (h : decodeMap kvs = some m) :
    decodeAttrs (removeKeys mapKeys kvs) = some m.attributes ∧
    ∃ v, lookupJ "values" kvs = some v ∧ decodeSchema v = some m.values := by
  rw [decodeMap_eq] at h
  simp only [Option.bind_eq_some, Option.map_eq_some'] at h
  obtain ⟨vals, h1, attrs, h2, heq⟩ := h
  cases hv : lookupJ "values" kvs with
  | none => rw [hv] at h1; cases h1
  | some v =>
    rw [hv] at h1
    exact ⟨by rw [← heq]; exact h2, v, rfl, by rw [← heq]; exact h1⟩

/-- Re-encoding a decoded `Map` payload decodes back to it, given that its
(recursively encoded) value schema round-trips. -/
theorem decodeMap_encode {kvs : List (String × Json)} {m : Map}
    (h : decodeMap kvs = some m)
    (hv : decodeSchema (encodeSchema m.values) = some m.values) :
    decodeMap (("type", .str "map") :: encodeMapFields m) = some m := by
  obtain ⟨hat, -⟩ := decodeMap_inv h
  obtain ⟨vals, attrs⟩ := m
  simp only [Map.values] at hv
  simp only [Map.attributes] at hat
  have hattr : decodeAttrs (removeKeys mapKeys
      (("type", Json.str "map") :: encodeMapFields ⟨vals, attrs⟩)) =
      some attrs := by
    have hs := @removeKeys_structural mapKeys kvs attrs
      [("type", Json.str "map"), ("values", encodeSchema vals)]
      (by intro x hx; fin_cases hx <;> rfl) (by decide) hat
    have heq : (("type", Json.str "map") :: encodeMapFields ⟨vals, attrs⟩) =
        [("type", Json.str "map"), ("values", encodeSchema vals)] ++
          encodeAttrsFields attrs := rfl
    rw [heq, hs]
    exact decodeAttrs_encode hat
  rw [decodeMap_eq]
  rw [show lookupJ "values" (("type", Json.str "map") ::
      encodeMapFields ⟨vals, attrs⟩) = some (encodeSchema vals) by
    simp [encodeMapFields, lookupJ]]
  rw [hattr]
  simp [hv]

/-- Re-encoding a `Field` decodes back to it, given that its (recursively
encoded) type schema round-trips.  No hypothesis about the original object
is needed: a serialized `Field` carries exactly its four declared keys. -/
theorem decodeField_encode {f : Field}
    (hty : decodeSchema (encodeSchema f.type) = some f.type) :
    decodeField (encodeField f) = some f := by
  obtain ⟨nm, doc, ty, df⟩ := f
  simp only [Field.type] at hty
  rw [show encodeField ⟨nm, doc, ty, df⟩ =
      .obj [("name", .str nm), ("doc", encodeOptStr doc),
        ("type", encodeSchema ty), ("default", encodeOptStr df)] by
    rw [encodeField]]
  rw [decodeField_obj]
  rw [show reqString (lookupJ "name" [("name", Json.str nm), ("doc", encodeOptStr doc),
      ("type", encodeSchema ty), ("default", encodeOptStr df)]) = some nm by
    simp [lookupJ, reqString]]
  have hdoc : lookupJ "doc" [("name", Json.str nm), ("doc", encodeOptStr doc),
      ("type", encodeSchema ty), ("default", encodeOptStr df)] =
      some (encodeOptStr doc) := by simp [lookupJ]
  have hdf : lookupJ "default" [("name", Json.str nm), ("doc", encodeOptStr doc),
      ("type", encodeSchema ty), ("default", encodeOptStr df)] =
      some (encodeOptStr df) := by simp [lookupJ]
  rw [decodeOptStr_of_lookup hdoc]
  rw [decodeOptStr_of_lookup hdf]
  rw [show lookupJ "type" [("name", Json.str nm), ("doc", encodeOptStr doc),
      ("type", encodeSchema ty), ("default", encodeOptStr df)] =
      some (encodeSchema ty) by simp [lookupJ]]
  simp [hty]

/-! ## Characterization lemmas for the recursive encoders -/

theorem encodeSchema_typeName (t : TypeName) :
    encodeSchema (.typeName t) = .str (encodeTypeName t) := by
  rw [encodeSchema]

theorem encodeSchema_union (xs : List Schema) :
    encodeSchema (.union xs) = .arr (encodeSchemaList xs) := by
  rw [encodeSchema]

theorem encodeSchema_complex (c : ComplexType) :
    encodeSchema (.complex c) = .obj (encodeComplexFields c) := by
  rw [encodeSchema]

theorem encodeSchema_attrType (t : AType) :
    encodeSchema (.attrType t) =
      .obj (("type", .str (encodeTypeName t.type)) ::
        encodeAttrsFields t.attributes) := by
  rw [encodeSchema]

theorem encodeSchemaList_nil : encodeSchemaList [] = [] := by
  rw [encodeSchemaList]

theorem encodeSchemaList_cons (x : Schema) (rest : List Schema) :
    encodeSchemaList (x :: rest) = encodeSchema x :: encodeSchemaList rest := by
  rw [encodeSchemaList]

theorem encodeFieldList_nil : encodeFieldList [] = [] := by
  rw [encodeFieldList]

theorem encodeFieldList_cons (f : Field) (rest : List Field) :
    encodeFieldList (f :: rest) = encodeField f :: encodeFieldList rest := by
  rw [encodeFieldList]

theorem encodeComplexFields_record (r : Record) :
    encodeComplexFields (.record r) =
      ("type", .str "record") :: encodeRecordFields r := by
  rw [encodeComplexFields]

theorem encodeComplexFields_enum (e : Enum) :
    encodeComplexFields (.enum e) =
      ("type", .str "enum") :: encodeEnumFields e := by
  rw [encodeComplexFields]

theorem encodeComplexFields_array (a : Array) :
    encodeComplexFields (.array a) =
      ("type", .str "array") :: encodeArrayFields a := by
  rw [encodeComplexFields]

theorem encodeComplexFields_map (m : Map) :
    encodeComplexFields (.map m) =
      ("type", .str "map") :: encodeMapFields m := by
  rw [encodeComplexFields]

theorem encodeComplexFields_fixed (f : Fixed) :
    encodeComplexFields (.fixed f) =
      ("type", .str "fixed") :: encodeFixedFields f := by
  rw [encodeComplexFields]

theorem decodeComplex_of_tag {kvs : List (String × Json)} {t : String}
    (h : lookupJ "type" kvs = some (.str t)) :
    decodeComplex kvs =
      if t = "record" then Option.map ComplexType.record (decodeRecord kvs)
      else if t = "enum" then Option.map ComplexType.enum (decodeEnum kvs)
      else if t = "array" then Option.map ComplexType.array (decodeArray kvs)
      else if t = "map" then Option.map ComplexType.map (decodeMap kvs)
      else if t = "fixed" then Option.map ComplexType.fixed (decodeFixed kvs)
      else none := by
  rw [decodeComplex_eq, h]

/-! ## The round-trip theorem

For every JSON value that successfully decodes, re-encoding the decoded
graph and decoding again returns the same graph.  Proved for all eight
mutually recursive decoders simultaneously, by strong induction on the
size of the input value. -/

theorem roundtrip_bounded (n : Nat) :
    (∀ kvs : List (String × Json), sizeOf kvs ≤ n → ∀ r,
      decodeRecord kvs = some r →
      decodeRecord (("type", .str "record") :: encodeRecordFields r) = some r) ∧
    (∀ kvs : List (String × Json), sizeOf kvs ≤ n → ∀ a,
      decodeArray kvs = some a →
      decodeArray (("type", .str "array") :: encodeArrayFields a) = some a) ∧
    (∀ kvs : List (String × Json), sizeOf kvs ≤ n → ∀ m,
      decodeMap kvs = some m →
      decodeMap (("type", .str "map") :: encodeMapFields m) = some m) ∧
    (∀ kvs : List (String × Json), sizeOf kvs ≤ n → ∀ c,
      decodeComplex kvs = some c →
      decodeComplex (encodeComplexFields c) = some c) ∧
    (∀ l : List Json, sizeOf l ≤ n → ∀ fs,
      decodeFieldList l = some fs →
      decodeFieldList (encodeFieldList fs) = some fs) ∧
    (∀ j : Json, sizeOf j ≤ n → ∀ f,
      decodeField j = some f → decodeField (encodeField f) = some f) ∧
    (∀ l : List Json, sizeOf l ≤ n → ∀ ss,
      decodeSchemaList l = some ss →
      decodeSchemaList (encodeSchemaList ss) = some ss) ∧
    (∀ j : Json, sizeOf j ≤ n → ∀ s,
      decodeSchema j = some s → decodeSchema (encodeSchema s) = some s) := by
  induction n using Nat.strong_induction_on with
  | _ n ih =>
  have IHfl : ∀ l : List Json, sizeOf l < n → ∀ fs,
      decodeFieldList l = some fs →
      decodeFieldList (encodeFieldList fs) = some fs :=
    fun l hl => (ih _ hl).2.2.2.2.1 l le_rfl
  have IHf : ∀ j : Json, sizeOf j < n → ∀ f,
      decodeField j = some f → decodeField (encodeField f) = some f :=
    fun j hj => (ih _ hj).2.2.2.2.2.1 j le_rfl
  have IHsl : ∀ l : List Json, sizeOf l < n → ∀ ss,
      decodeSchemaList l = some ss →
      decodeSchemaList (encodeSchemaList ss) = some ss :=
    fun l hl => (ih _ hl).2.2.2.2.2.2.1 l le_rfl
  have IHs : ∀ j : Json, sizeOf j < n → ∀ s,
      decodeSchema j = some s → decodeSchema (encodeSchema s) = some s :=
    fun j hj => (ih _ hj).2.2.2.2.2.2.2 j le_rfl
  have Hrec : ∀ kvs : List (String × Json), sizeOf kvs ≤ n → ∀ r,
      decodeRecord kvs = some r →
      decodeRecord (("type", .str "record") :: encodeRecordFields r) = some r := by
    intro kvs hn r h
    obtain ⟨-, l, hv, hfl⟩ := decodeRecord_inv h
    have hsz : sizeOf l < n := by
      have := lookupJ_sizeOf hv
      simp at this
      omega
    exact decodeRecord_encode h (IHfl l hsz _ hfl)
  have Harr : ∀ kvs : List (String × Json), sizeOf kvs ≤ n → ∀ a,
      decodeArray kvs = some a →
      decodeArray (("type", .str "array") :: encodeArrayFields a) = some a := by
    intro kvs hn a h
    obtain ⟨-, v, hv, hit⟩ := decodeArray_inv h
    have hsz : sizeOf v < n := by
      have := lookupJ_sizeOf hv
      omega
    exact decodeArray_encode h (IHs v hsz _ hit)
  have Hmap : ∀ kvs : List (String × Json), sizeOf kvs ≤ n → ∀ m,
      decodeMap kvs = some m →
      decodeMap (("type", .str "map") :: encodeMapFields m) = some m := by
    intro kvs hn m h
    obtain ⟨-, v, hv, hvv⟩ := decodeMap_inv h
    have hsz : sizeOf v < n := by
      have := lookupJ_sizeOf hv
      omega
    exact decodeMap_encode h (IHs v hsz _ hvv)
  have Hc : ∀ kvs : List (String × Json), sizeOf kvs ≤ n → ∀ c,
      decodeComplex kvs = some c →
      decodeComplex (encodeComplexFields c) = some c := by
    intro kvs hn c h
    cases hv : lookupJ "type" kvs with
    | none => rw [decodeComplex_eq, hv] at h; cases h
    | some v =>
      cases v with
      | str t =>
        rw [decodeComplex_of_tag hv] at h
        by_cases h1 : t = "record"
        · subst h1
          rw [if_pos rfl] at h
          simp only [Option.map_eq_some'] at h
          obtain ⟨r, hr, rfl⟩ := h
          have htag : lookupJ "type" (("type", Json.str "record") ::
              encodeRecordFields r) = some (Json.str "record") := by
            rw [lookupJ_cons, if_pos rfl]
          rw [encodeComplexFields_record, decodeComplex_of_tag htag]
          rw [if_pos rfl, Hrec kvs hn r hr]
          rfl
        · by_cases h2 : t = "enum"
          · subst h2
            rw [if_neg (by decide), if_pos rfl] at h
            simp only [Option.map_eq_some'] at h
            obtain ⟨e, he, rfl⟩ := h
            have htag : lookupJ "type" (("type", Json.str "enum") ::
                encodeEnumFields e) = some (Json.str "enum") := by
              rw [lookupJ_cons, if_pos rfl]
            rw [encodeComplexFields_enum, decodeComplex_of_tag htag]
            rw [if_neg (by decide), if_pos rfl, decodeEnum_encode he]
            rfl
          · by_cases h3 : t = "array"
            · subst h3
              rw [if_neg (by decide), if_neg (by decide), if_pos rfl] at h
              simp only [Option.map_eq_some'] at h
              obtain ⟨a, ha, rfl⟩ := h
              have htag : lookupJ "type" (("type", Json.str "array") ::
                  encodeArrayFields a) = some (Json.str "array") := by
                rw [lookupJ_cons, if_pos rfl]
              rw [encodeComplexFields_array, decodeComplex_of_tag htag]
              rw [if_neg (by decide), if_neg (by decide), if_pos rfl,
                Harr kvs hn a ha]
              rfl
            · by_cases h4 : t = "map"
              · subst h4
                rw [if_neg (by decide), if_neg (by decide), if_neg (by decide),
                  if_pos rfl] at h
                simp only [Option.map_eq_some'] at h
                obtain ⟨m, hm, rfl⟩ := h
                have htag : lookupJ "type" (("type", Json.str "map") ::
                    encodeMapFields m) = some (Json.str "map") := by
                  rw [lookupJ_cons, if_pos rfl]
                rw [encodeComplexFields_map, decodeComplex_of_tag htag]
                rw [if_neg (by decide), if_neg (by decide), if_neg (by decide),
                  if_pos rfl, Hmap kvs hn m hm]
                rfl
              · by_cases h5 : t = "fixed"
                · subst h5
                  rw [if_neg (by decide), if_neg (by decide), if_neg (by decide),
                    if_neg (by decide), if_pos rfl] at h
                  simp only [Option.map_eq_some'] at h
                  obtain ⟨f, hf, rfl⟩ := h
                  have htag : lookupJ "type" (("type", Json.str "fixed") ::
                      encodeFixedFields f) = some (Json.str "fixed") := by
                    rw [lookupJ_cons, if_pos rfl]
                  rw [encodeComplexFields_fixed, decodeComplex_of_tag htag]
                  rw [if_neg (by decide), if_neg (by decide), if_neg (by decide),
                    if_neg (by decide), if_pos rfl, decodeFixed_encode hf]
                  rfl
                · rw [if_neg h1, if_neg h2, if_neg h3, if_neg h4, if_neg h5] at h
                  cases h
      | null => rw [decodeComplex_eq, hv] at h; cases h
      | bool b => rw [decodeComplex_eq, hv] at h; cases h
      | num m => rw [decodeComplex_eq, hv] at h; cases h
      | arr l => rw [decodeComplex_eq, hv] at h; cases h
      | obj o => rw [decodeComplex_eq, hv] at h; cases h
  have Hfl : ∀ l : List Json, sizeOf l ≤ n → ∀ fs,
      decodeFieldList l = some fs →
      decodeFieldList (encodeFieldList fs) = some fs := by
    intro l hn fs h
    cases l with
    | nil =>
      rw [decodeFieldList_nil] at h
      cases h
      rw [encodeFieldList_nil, decodeFieldList_nil]
    | cons j rest =>
      rw [decodeFieldList_cons] at h
      simp only [Option.bind_eq_some, Option.map_eq_some'] at h
      obtain ⟨f, hf, fs', hfs', rfl⟩ := h
      have hj : sizeOf j < n := by simp at hn; omega
      have hrest : sizeOf rest < n := by simp at hn; omega
      rw [encodeFieldList_cons, decodeFieldList_cons,
        IHf j hj f hf, IHfl rest hrest fs' hfs']
      rfl
  have Hf : ∀ j : Json, sizeOf j ≤ n → ∀ f,
      decodeField j = some f → decodeField (encodeField f) = some f := by
    intro j hn f h
    cases j with
    | obj fkvs =>
      rw [decodeField_obj] at h
      simp only [Option.bind_eq_some, Option.map_eq_some'] at h
      obtain ⟨nm, h1, doc, h2, ty, h3, df, h4, heq⟩ := h
      cases hv : lookupJ "type" fkvs with
      | none => rw [hv] at h3; cases h3
      | some v =>
        rw [hv] at h3
        have hsz : sizeOf v < n := by
          have := lookupJ_sizeOf hv
          simp at hn
          omega
        subst heq
        exact decodeField_encode (IHs v hsz ty h3)
    | null => simp [decodeField] at h
    | bool b => simp [decodeField] at h
    | num m => simp [decodeField] at h
    | str st => simp [decodeField] at h
    | arr l => simp [decodeField] at h
  have Hsl : ∀ l : List Json, sizeOf l ≤ n → ∀ ss,
      decodeSchemaList l = some ss →
      decodeSchemaList (encodeSchemaList ss) = some ss := by
    intro l hn ss h
    cases l with
    | nil =>
      rw [decodeSchemaList_nil] at h
      cases h
      rw [encodeSchemaList_nil, decodeSchemaList_nil]
    | cons j rest =>
      rw [decodeSchemaList_cons] at h
      simp only [Option.bind_eq_some, Option.map_eq_some'] at h
      obtain ⟨x, hx, ss', hss', rfl⟩ := h
      have hj : sizeOf j < n := by simp at hn; omega
      have hrest : sizeOf rest < n := by simp at hn; omega
      rw [encodeSchemaList_cons, decodeSchemaList_cons,
        IHs j hj x hx, IHsl rest hrest ss' hss']
      rfl
  have Hs : ∀ j : Json, sizeOf j ≤ n → ∀ s,
      decodeSchema j = some s → decodeSchema (encodeSchema s) = some s := by
    intro j hn s h
    cases j with
    | null => rw [decodeSchema] at h; cases h
    | bool b => rw [decodeSchema] at h; cases h
    | num m => rw [decodeSchema] at h; cases h
    | str st =>
      rw [decodeSchema_str] at h
      simp only [Option.some.injEq] at h
      subst h
      rw [encodeSchema_typeName, encode_parseTypeName, decodeSchema_str]
    | arr l =>
      rw [decodeSchema_arr] at h
      simp only [Option.map_eq_some'] at h
      obtain ⟨ss, hss, rfl⟩ := h
      have hl : sizeOf l < n := by simp at hn; omega
      rw [encodeSchema_union, decodeSchema_arr, IHsl l hl ss hss]
      rfl
    | obj kvs =>
      rw [decodeSchema_obj] at h
      have hk : sizeOf kvs ≤ n := by simp at hn; omega
      cases hc : decodeComplex kvs with
      | some c =>
        rw [hc] at h
        simp only [Option.some.injEq] at h
        subst h
        rw [encodeSchema_complex, decodeSchema_obj, Hc kvs hk c hc]
      | none =>
        rw [hc] at h
        simp only [Option.map_eq_some'] at h
        obtain ⟨t, ht, rfl⟩ := h
        rw [encodeSchema_attrType, decodeSchema_obj,
          decodeComplex_encodeAType ht, hc, decodeAType_encode ht]
        rfl
  exact ⟨Hrec, Harr, Hmap, Hc, Hfl, Hf, Hsl, Hs⟩

/-! ## Claim theorems -/

/-- C2: for every Schema value produced by a successful decode, re-encoding
it and decoding the result yields a Schema equal to the original.  (The
model proves plain structural equality of the decoded graphs, which is
finer than the claim's set-equality of the open attribute mappings.) -/
theorem C2_roundtrip (j : Json) (s : Schema) (h : decodeSchema j = some s) :
    decodeSchema (encodeSchema s) = some s :=
  (roundtrip_bounded (sizeOf j)).2.2.2.2.2.2.2 j le_rfl s h

theorem C2_roundtrip_witness :
    decodeSchema (Json.obj [("type", Json.str "long"),
      ("logicalType", Json.str "timestamp-micros")]) =
      some (.attrType ⟨.primitive .long, ⟨some "timestamp-micros", []⟩⟩) ∧
    decodeSchema (encodeSchema
      (Schema.attrType ⟨.primitive .long, ⟨some "timestamp-micros", []⟩⟩)) =
      some (.attrType ⟨.primitive .long, ⟨some "timestamp-micros", []⟩⟩) := by
  constructor
  · simp +decide [decodeSchema, decodeComplex, decodeAType, decodeAttrs,
      decodeOptStr, lookupJ, removeKeys, parseTypeName]
  · exact C2_roundtrip
      (Json.obj [("type", Json.str "long"),
        ("logicalType", Json.str "timestamp-micros")]) _
      (by simp +decide [decodeSchema, decodeComplex, decodeAType, decodeAttrs,
        decodeOptStr, lookupJ, removeKeys, parseTypeName])

/-- C1 counterexample: the JSON object `{"type":"record"}` has `"type"`
textually equal to the complex tag `record`, yet it decodes as
`Schema::Type` (not `Schema::Complex`): when the `Record` payload parser
fails (here: missing `name` and `fields`), serde's untagged resolution
falls through to the `Type` variant instead of failing, so "an object with
type record yields Schema::Complex and never Schema::Type" is false. -/
theorem C1_counterexample :
    decodeSchema (Json.obj [("type", Json.str "record")]) =
      some (.attrType ⟨.ref "record", ⟨none, []⟩⟩) ∧
    ¬ (∃ c, decodeSchema (Json.obj [("type", Json.str "record")]) =
      some (.complex c)) := by
  have h1 : decodeSchema (Json.obj [("type", Json.str "record")]) =
      some (.attrType ⟨.ref "record", ⟨none, []⟩⟩) := by
    simp +decide [decodeSchema, decodeComplex, decodeRecord_eq, reqString,
      decodeAType, decodeAttrs, decodeOptStr, lookupJ, removeKeys,
      parseTypeName]
  refine ⟨h1, ?_⟩
  rintro ⟨c, hc⟩
  rw [h1] at hc
  simp at hc

/-- C1 (amended): the dispatch priority of the untagged `Schema` decode — a
JSON string always decodes as `TypeName`; an array of decodable elements
decodes as `Union`; an object on which the tag-dispatched `ComplexType`
parse succeeds decodes as `Complex` (this branch is tried before the
generic `Type` branch); an object on which the `ComplexType` parse fails
— including an object whose `"type"` is one of the five tags but whose
payload is malformed — decodes as `Type` exactly when `Type` parses, and
an object whose `"type"` string is not one of the five tags never decodes
as `Complex`. -/
theorem C1_dispatch_priority :
    (∀ s : String, decodeSchema (.str s) = some (.typeName (parseTypeName s))) ∧
    (∀ (l : List Json) (ss : List Schema), decodeSchemaList l = some ss →
      decodeSchema (.arr l) = some (.union ss)) ∧
    (∀ (kvs : List (String × Json)) (c : ComplexType),
      decodeComplex kvs = some c →
      decodeSchema (.obj kvs) = some (.complex c)) ∧
    (∀ kvs : List (String × Json), decodeComplex kvs = none →
      decodeSchema (.obj kvs) = (decodeAType kvs).map Schema.attrType) ∧
    (∀ (kvs : List (String × Json)) (t : String),
      lookupJ "type" kvs = some (.str t) →
      t ≠ "record" → t ≠ "enum" → t ≠ "array" → t ≠ "map" → t ≠ "fixed" →
      decodeComplex kvs = none) := by
  refine ⟨fun s => decodeSchema_str s, fun l ss h => ?_, fun kvs c h => ?_,
    fun kvs h => ?_, fun kvs t ht h1 h2 h3 h4 h5 => ?_⟩
  · rw [decodeSchema_arr, h]; rfl
  · rw [decodeSchema_obj, h]
  · rw [decodeSchema_obj, h]
  · rw [decodeComplex_of_tag ht, if_neg h1, if_neg h2, if_neg h3, if_neg h4,
      if_neg h5]

theorem C1_dispatch_priority_witness :
    decodeSchemaList [Json.str "int"] = some [.typeName (.primitive .int)] ∧
    decodeSchema (.arr [Json.str "int"]) =
      some (.union [.typeName (.primitive .int)]) ∧
    decodeComplex [("type", Json.str "fixed"), ("name", Json.str "f"),
      ("size", Json.num 4)] = some (.fixed ⟨"f", none, [], 4, ⟨none, []⟩⟩) ∧
    decodeSchema (.obj [("type", Json.str "fixed"), ("name", Json.str "f"),
      ("size", Json.num 4)]) =
      some (.complex (.fixed ⟨"f", none, [], 4, ⟨none, []⟩⟩)) ∧
    lookupJ "type" [("type", Json.str "widget")] = some (.str "widget") ∧
    decodeComplex [("type", Json.str "widget")] = none := by
  have hl : decodeSchemaList [Json.str "int"] =
      some [.typeName (.primitive .int)] := by
    simp +decide [decodeSchemaList, decodeSchema, parseTypeName]
  have hc : decodeComplex [("type", Json.str "fixed"), ("name", Json.str "f"),
      ("size", Json.num 4)] = some (.fixed ⟨"f", none, [], 4, ⟨none, []⟩⟩) := by
    simp +decide [decodeComplex, decodeFixed, reqString, decodeAliases,
      decodeAttrs, decodeOptStr, lookupJ, removeKeys, fixedKeys]
  have hw : lookupJ "type" [("type", Json.str "widget")] =
      some (.str "widget") := by simp [lookupJ]
  exact ⟨hl, C1_dispatch_priority.2.1 _ _ hl, hc,
    C1_dispatch_priority.2.2.1 _ _ hc, hw,
    C1_dispatch_priority.2.2.2.2 _ _ hw (by decide) (by decide) (by decide)
      (by decide) (by decide)⟩

/-- C3: each of the 8 reserved words decodes (case-sensitively) to its
`PrimitiveType`; every other string decodes to a `Ref` carrying exactly
that string; and a bare JSON string always decodes as
`Schema::TypeName` of that parse. -/
theorem C3_reserved_words :
    parseTypeName "null" = .primitive .null ∧
    parseTypeName "boolean" = .primitive .boolean ∧
    parseTypeName "int" = .primitive .int ∧
    parseTypeName "long" = .primitive .long ∧
    parseTypeName "float" = .primitive .float ∧
    parseTypeName "double" = .primitive .double ∧
    parseTypeName "bytes" = .primitive .bytes ∧
    parseTypeName "string" = .primitive .string ∧
    (∀ s : String, s ∉ (["null", "boolean", "int", "long", "float",
      "double", "bytes", "string"] : List String) → parseTypeName s = .ref s) ∧
    (∀ s : String, decodeSchema (.str s) = some (.typeName (parseTypeName s))) := by
  refine ⟨by decide, by decide, by decide, by decide, by decide, by decide,
    by decide, by decide, fun s hs => ?_, fun s => decodeSchema_str s⟩
  rw [parseTypeName]
  simp only [List.mem_cons, List.not_mem_nil, or_false] at hs
  push_neg at hs
  obtain ⟨n1, n2, n3, n4, n5, n6, n7, n8⟩ := hs
  rw [if_neg n1, if_neg n2, if_neg n3, if_neg n4, if_neg n5, if_neg n6,
    if_neg n7, if_neg n8]

theorem C3_reserved_words_witness :
    parseTypeName "Int" = .ref "Int" :=
  C3_reserved_words.2.2.2.2.2.2.2.2.1 "Int" (by decide)

/-- C9: the union decoder imposes no arity or nesting constraints at this
layer: `[]` decodes to an empty `Union`, `[[]]` decodes to a `Union`
directly containing a `Union`, and in general every array whose elements
decode yields the `Union` of the decoded elements in order. -/
theorem C9_union_unconstrained :
    decodeSchema (.arr []) = some (.union []) ∧
    decodeSchema (.arr [.arr []]) = some (.union [.union []]) ∧
    (∀ (l : List Json) (ss : List Schema), decodeSchemaList l = some ss →
      decodeSchema (.arr l) = some (.union ss)) := by
  refine ⟨?_, ?_, fun l ss h => by rw [decodeSchema_arr, h]; rfl⟩
  · simp [decodeSchema_arr, decodeSchemaList_nil]
  · simp [decodeSchema_arr, decodeSchemaList_nil, decodeSchemaList_cons,
      decodeSchema]

theorem C9_union_unconstrained_witness :
    decodeSchemaList [Json.str "null"] = some [.typeName (.primitive .null)] ∧
    decodeSchema (.arr [Json.str "null"]) =
      some (.union [.typeName (.primitive .null)]) := by
  have h : decodeSchemaList [Json.str "null"] =
      some [.typeName (.primitive .null)] := by
    simp +decide [decodeSchemaList, decodeSchema, parseTypeName]
  exact ⟨h, C9_union_unconstrained.2.2 _ _ h⟩

theorem lookupJ_removeKeys_self {ks : List String} {k : String}
    (h : ks.contains k = true) (kvs : List (String × Json)) :
    lookupJ k (removeKeys ks kvs) = none := by
  induction kvs with
  | nil => rfl
  | cons e rest ih =>
    obtain ⟨k2, v⟩ := e
    rw [removeKeys_cons]
    cases hks : ks.contains k2 with
    | true => rw [if_pos rfl]; exact ih
    | false =>
      rw [if_neg (by simp), lookupJ_cons]
      have hne : k2 ≠ k := by
        intro he
        rw [he, h] at hks
        cases hks
      rw [if_neg hne]
      exact ih

theorem bind_none_of {α β : Type} (o : Option α) :
    (o.bind fun _ => (none : Option β)) = none := by
  cases o <;> rfl

/-- C4: decoding an object into a struct carrying `Attributes` separates
the keys — the owning struct's recognized keys and `"logicalType"` never
reach the open mapping, `"logicalType"` is promoted into the dedicated
slot without duplication, and every remaining entry is kept verbatim.
Shown for every `Attributes`-carrying struct: `Type`, `Record`, `Enum`,
`Fixed`, `Array` and `Map` (and once generically for the shared
`Attributes` decode, through which each owner routes its residual
entries); and the claim's concrete example decodes as stated. -/
theorem C4_attribute_separation :
    (∀ (kvs : List (String × Json)) (t : AType), decodeAType kvs = some t →
      t.attributes.additional = removeKeys ["type", "logicalType"] kvs ∧
      lookupJ "type" t.attributes.additional = none ∧
      lookupJ "logicalType" t.attributes.additional = none) ∧
    (∀ (kvs : List (String × Json)) (t : AType) (s : String),
      decodeAType kvs = some t → lookupJ "logicalType" kvs = some (.str s) →
      t.attributes.logicalType = some s) ∧
    (∀ (kvs : List (String × Json)) (r : Record), decodeRecord kvs = some r →
      r.attributes.additional = removeKeys (recordKeys ++ ["logicalType"]) kvs ∧
      lookupJ "logicalType" r.attributes.additional = none ∧
      lookupJ "name" r.attributes.additional = none) ∧
    (∀ (rest : List (String × Json)) (a : Attributes), decodeAttrs rest = some a →
      a.additional = removeKeys ["logicalType"] rest ∧
      lookupJ "logicalType" a.additional = none ∧
      ∀ s : String, lookupJ "logicalType" rest = some (.str s) →
        a.logicalType = some s) ∧
    (∀ (kvs : List (String × Json)) (e : Enum), decodeEnum kvs = some e →
      e.attributes.additional = removeKeys (enumKeys ++ ["logicalType"]) kvs ∧
      lookupJ "symbols" e.attributes.additional = none ∧
      lookupJ "default" e.attributes.additional = none ∧
      lookupJ "name" e.attributes.additional = none ∧
      lookupJ "logicalType" e.attributes.additional = none) ∧
    (∀ (kvs : List (String × Json)) (f : Fixed), decodeFixed kvs = some f →
      f.attributes.additional = removeKeys (fixedKeys ++ ["logicalType"]) kvs ∧
      lookupJ "size" f.attributes.additional = none ∧
      lookupJ "name" f.attributes.additional = none ∧
      lookupJ "logicalType" f.attributes.additional = none) ∧
    (∀ (kvs : List (String × Json)) (a : Array), decodeArray kvs = some a →
      a.attributes.additional = removeKeys (arrayKeys ++ ["logicalType"]) kvs ∧
      lookupJ "items" a.attributes.additional = none ∧
      lookupJ "type" a.attributes.additional = none ∧
      lookupJ "logicalType" a.attributes.additional = none) ∧
    (∀ (kvs : List (String × Json)) (m : Map), decodeMap kvs = some m →
      m.attributes.additional = removeKeys (mapKeys ++ ["logicalType"]) kvs ∧
      lookupJ "values" m.attributes.additional = none ∧
      lookupJ "type" m.attributes.additional = none ∧
      lookupJ "logicalType" m.attributes.additional = none) ∧
    decodeSchema (.obj [("type", .str "long"),
      ("logicalType", .str "timestamp-micros")]) =
      some (.attrType ⟨.primitive .long, ⟨some "timestamp-micros", []⟩⟩) := by
  have hsep : ∀ (ks : List String) (kvs : List (String × Json)) (a : Attributes),
      decodeAttrs (removeKeys ks kvs) = some a →
      a.additional = removeKeys (ks ++ ["logicalType"]) kvs := by
    intro ks kvs a h
    rw [decodeAttrs_eq_some] at h
    rw [h.2, removeKeys_removeKeys]
  refine ⟨fun kvs t ht => ?_, fun kvs t s ht hl => ?_, fun kvs r hr => ?_,
    fun rest a ha => ?_, fun kvs e he => ?_, fun kvs f hf => ?_,
    fun kvs a ha => ?_, fun kvs m hm => ?_, ?_⟩
  · obtain ⟨s, hv, hattrs, htype⟩ := decodeAType_some_inv ht
    rw [decodeAttrs_eq_some] at hattrs
    have hadd : t.attributes.additional = removeKeys ["type", "logicalType"] kvs := by
      rw [hattrs.2, removeKeys_removeKeys]
      rfl
    refine ⟨hadd, ?_, ?_⟩
    · rw [hadd]; exact lookupJ_removeKeys_self (by decide) kvs
    · rw [hadd]; exact lookupJ_removeKeys_self (by decide) kvs
  · obtain ⟨s2, hv, hattrs, htype⟩ := decodeAType_some_inv ht
    rw [decodeAttrs_eq_some] at hattrs
    have h1 := hattrs.1
    rw [decodeOptStr_congr (@lookupJ_removeKeys ["type"] "logicalType" (by decide) kvs)] at h1
    rw [decodeOptStr, hl] at h1
    simp only [Option.some.injEq] at h1
    rw [← h1]
  · obtain ⟨hat, -⟩ := decodeRecord_inv hr
    have hadd := hsep recordKeys kvs r.attributes hat
    refine ⟨hadd, ?_, ?_⟩
    · rw [hadd]; exact lookupJ_removeKeys_self (by decide) kvs
    · rw [hadd]; exact lookupJ_removeKeys_self (by decide) kvs
  · rw [decodeAttrs_eq_some] at ha
    refine ⟨ha.2, ?_, fun s hs => ?_⟩
    · rw [ha.2]; exact lookupJ_removeKeys_self (by decide) rest
    · have h1 := ha.1
      rw [decodeOptStr, hs] at h1
      simp only [Option.some.injEq] at h1
      rw [← h1]
  · have hat := decodeEnum_attrs he
    have hadd := hsep enumKeys kvs e.attributes hat
    refine ⟨hadd, ?_, ?_, ?_, ?_⟩ <;>
      (rw [hadd]; exact lookupJ_removeKeys_self (by decide) kvs)
  · have hat := decodeFixed_attrs hf
    have hadd := hsep fixedKeys kvs f.attributes hat
    refine ⟨hadd, ?_, ?_, ?_⟩ <;>
      (rw [hadd]; exact lookupJ_removeKeys_self (by decide) kvs)
  · obtain ⟨hat, -⟩ := decodeArray_inv ha
    have hadd := hsep arrayKeys kvs a.attributes hat
    refine ⟨hadd, ?_, ?_, ?_⟩ <;>
      (rw [hadd]; exact lookupJ_removeKeys_self (by decide) kvs)
  · obtain ⟨hat, -⟩ := decodeMap_inv hm
    have hadd := hsep mapKeys kvs m.attributes hat
    refine ⟨hadd, ?_, ?_, ?_⟩ <;>
      (rw [hadd]; exact lookupJ_removeKeys_self (by decide) kvs)
  · simp +decide [decodeSchema, decodeComplex, decodeAType, decodeAttrs,
      decodeOptStr, lookupJ, removeKeys, parseTypeName]

theorem C4_attribute_separation_witness :
    decodeAType [("type", Json.str "fixed"), ("logicalType", Json.str "decimal"),
      ("precision", Json.num 25), ("scale", Json.num 2)] =
      some ⟨.ref "fixed", ⟨some "decimal",
        [("precision", Json.num 25), ("scale", Json.num 2)]⟩⟩ ∧
    (⟨.ref "fixed", ⟨some "decimal",
      [("precision", Json.num 25), ("scale", Json.num 2)]⟩⟩ : AType).attributes.additional =
      removeKeys ["type", "logicalType"]
        [("type", Json.str "fixed"), ("logicalType", Json.str "decimal"),
         ("precision", Json.num 25), ("scale", Json.num 2)] ∧
    (⟨.ref "fixed", ⟨some "decimal",
      [("precision", Json.num 25), ("scale", Json.num 2)]⟩⟩ : AType).attributes.logicalType =
      some "decimal" ∧
    (⟨"E", none, none, [], ["A"], none,
      ⟨none, [("color", Json.str "blue")]⟩⟩ : Enum).attributes.additional =
      removeKeys (enumKeys ++ ["logicalType"])
        [("name", Json.str "E"), ("symbols", Json.arr [Json.str "A"]),
         ("color", Json.str "blue")] := by
  have h : decodeAType [("type", Json.str "fixed"), ("logicalType", Json.str "decimal"),
      ("precision", Json.num 25), ("scale", Json.num 2)] =
      some ⟨.ref "fixed", ⟨some "decimal",
        [("precision", Json.num 25), ("scale", Json.num 2)]⟩⟩ := by
    simp +decide [decodeAType, decodeAttrs, decodeOptStr, lookupJ, removeKeys,
      parseTypeName]
  have he : decodeEnum [("name", Json.str "E"),
      ("symbols", Json.arr [Json.str "A"]), ("color", Json.str "blue")] =
      some ⟨"E", none, none, [], ["A"], none,
        ⟨none, [("color", Json.str "blue")]⟩⟩ := by
    simp +decide [decodeEnum, reqString, decodeOptStr, decodeAliases,
      asStringList, decodeAttrs, lookupJ, removeKeys, enumKeys]
  exact ⟨h, (C4_attribute_separation.1 _ _ h).1,
    C4_attribute_separation.2.1 _ _ "decimal" h (by simp [lookupJ]),
    (C4_attribute_separation.2.2.2.2.1 _ _ he).1⟩

/-- C5 counterexample: a field whose `"default"` is a JSON number is NOT
captured verbatim — the whole `Field` decode fails (`default` is
`Option<&str>`, so only a JSON string or null/absent is accepted), while
the same field without the `"default"` key decodes fine.  This contradicts
"stored verbatim regardless of the JSON value's own type". -/
theorem C5_counterexample :
    decodeField (.obj [("name", .str "x"), ("type", .str "int"),
      ("default", .num 0)]) = none ∧
    decodeField (.obj [("name", .str "x"), ("type", .str "int")]) =
      some (.mk "x" none (.typeName (.primitive .int)) none) := by
  constructor
  · simp +decide [decodeField_obj, reqString, decodeOptStr, lookupJ,
      decodeSchema, parseTypeName]
  · simp +decide [decodeField_obj, reqString, decodeOptStr, lookupJ,
      decodeSchema, parseTypeName]

/-- C5 (amended): the `"default"` of a `Field` is captured as the raw
string, with no typed interpretation, when the JSON value is a string; an
absent or explicit-null `"default"` decodes to no default; but a
`"default"` holding any non-string, non-null JSON value (number, boolean,
array or object) makes the `Field` decode fail — it is not captured. -/
theorem C5_default_raw_string :
    (∀ (fkvs : List (String × Json)) (s : String) (f : Field),
      lookupJ "default" fkvs = some (.str s) →
      decodeField (.obj fkvs) = some f → f.default = some s) ∧
    (∀ (fkvs : List (String × Json)) (f : Field),
      lookupJ "default" fkvs = none →
      decodeField (.obj fkvs) = some f → f.default = none) ∧
    (∀ (fkvs : List (String × Json)) (m : Int),
      lookupJ "default" fkvs = some (.num m) →
      decodeField (.obj fkvs) = none) ∧
    (∀ (fkvs : List (String × Json)) (b : Bool),
      lookupJ "default" fkvs = some (.bool b) →
      decodeField (.obj fkvs) = none) ∧
    (∀ (fkvs : List (String × Json)) (f : Field),
      lookupJ "default" fkvs = some .null →
      decodeField (.obj fkvs) = some f → f.default = none) ∧
    (∀ (fkvs : List (String × Json)) (l : List Json),
      lookupJ "default" fkvs = some (.arr l) →
      decodeField (.obj fkvs) = none) ∧
    (∀ (fkvs : List (String × Json)) (o : List (String × Json)),
      lookupJ "default" fkvs = some (.obj o) →
      decodeField (.obj fkvs) = none) := by
  have hfail : ∀ (fkvs : List (String × Json)),
      decodeOptStr fkvs "default" = none → decodeField (.obj fkvs) = none := by
    intro fkvs hd
    rw [decodeField_obj]
    simp [hd, bind_none_of]
  have hcap : ∀ (fkvs : List (String × Json)) (df0 : Option String) (f : Field),
      decodeOptStr fkvs "default" = some df0 →
      decodeField (.obj fkvs) = some f → f.default = df0 := by
    intro fkvs df0 f hd hf
    rw [decodeField_obj] at hf
    simp only [Option.bind_eq_some, Option.map_eq_some'] at hf
    obtain ⟨nm, h1, doc, h2, ty, h3, df, h4, heq⟩ := hf
    rw [hd] at h4
    simp only [Option.some.injEq] at h4
    rw [← heq, h4]
    rfl
  exact ⟨fun fkvs s f hl hf => hcap fkvs (some s) f (by rw [decodeOptStr, hl]) hf,
    fun fkvs f hl hf => hcap fkvs none f (by rw [decodeOptStr, hl]) hf,
    fun fkvs m hl => hfail fkvs (by rw [decodeOptStr, hl]),
    fun fkvs b hl => hfail fkvs (by rw [decodeOptStr, hl]),
    fun fkvs f hl hf => hcap fkvs none f (by rw [decodeOptStr, hl]) hf,
    fun fkvs l hl => hfail fkvs (by rw [decodeOptStr, hl]),
    fun fkvs o hl => hfail fkvs (by rw [decodeOptStr, hl])⟩

theorem C5_default_raw_string_witness :
    lookupJ "default" [("name", Json.str "x"), ("type", Json.str "int"),
      ("default", Json.str "0")] = some (.str "0") ∧
    decodeField (.obj [("name", Json.str "x"), ("type", Json.str "int"),
      ("default", Json.str "0")]) =
      some (.mk "x" none (.typeName (.primitive .int)) (some "0")) ∧
    (Field.mk "x" none (.typeName (.primitive .int)) (some "0")).default =
      some "0" ∧
    (Field.mk "y" none (.typeName (.primitive .int)) none).default = none := by
  have hl : lookupJ "default" [("name", Json.str "x"), ("type", Json.str "int"),
      ("default", Json.str "0")] = some (.str "0") := by simp [lookupJ]
  have hf : decodeField (.obj [("name", Json.str "x"), ("type", Json.str "int"),
      ("default", Json.str "0")]) =
      some (.mk "x" none (.typeName (.primitive .int)) (some "0")) := by
    simp +decide [decodeField_obj, reqString, decodeOptStr, lookupJ,
      decodeSchema, parseTypeName]
  have hln : lookupJ "default" [("name", Json.str "y"), ("type", Json.str "int"),
      ("default", Json.null)] = some .null := by simp [lookupJ]
  have hfn : decodeField (.obj [("name", Json.str "y"), ("type", Json.str "int"),
      ("default", Json.null)]) =
      some (.mk "y" none (.typeName (.primitive .int)) none) := by
    simp +decide [decodeField_obj, reqString, decodeOptStr, lookupJ,
      decodeSchema, parseTypeName]
  exact ⟨hl, hf, C5_default_raw_string.1 _ "0" _ hl hf,
    C5_default_raw_string.2.2.2.2.1 _ _ hln hfn⟩

/-- C8 counterexample: an object tagged `record` that lacks `"fields"`
does make the `Record`/`ComplexType` parser fail, but the whole document
decode does NOT error — the untagged `Schema` decode falls back to the
`Type` variant and succeeds. -/
theorem C8_counterexample :
    decodeSchema (.obj [("type", .str "record"), ("name", .str "N")]) =
      some (.attrType ⟨.ref "record", ⟨none, [("name", .str "N")]⟩⟩) ∧
    decodeSchema (.obj [("type", .str "record"), ("name", .str "N")]) ≠ none := by
  have h : decodeSchema (.obj [("type", .str "record"), ("name", .str "N")]) =
      some (.attrType ⟨.ref "record", ⟨none, [("name", .str "N")]⟩⟩) := by
    simp +decide [decodeSchema, decodeComplex, decodeRecord_eq, decodeFields_eq,
      reqString, decodeOptStr, decodeAliases, decodeAType, decodeAttrs,
      lookupJ, removeKeys, recordKeys, parseTypeName]
  exact ⟨h, by rw [h]; simp⟩

/-- C8 (amended): the `Record` payload parser fails when `"fields"` is
absent and the `Enum` payload parser fails when `"symbols"` is absent
(these keys have no serde default), so the tag-dispatched `ComplexType`
decode of such objects fails — though a full `Schema` document decode then
falls back to the `Type` variant rather than erroring.  The optional keys
`namespace`, `doc`, `aliases`, `default` may all be absent: the record and
enum still decode, with `none`/empty-list defaults. -/
theorem C8_required_keys :
    (∀ kvs : List (String × Json), lookupJ "fields" kvs = none →
      decodeRecord kvs = none) ∧
    (∀ kvs : List (String × Json), lookupJ "symbols" kvs = none →
      decodeEnum kvs = none) ∧
    (∀ kvs : List (String × Json), lookupJ "type" kvs = some (.str "record") →
      lookupJ "fields" kvs = none → decodeComplex kvs = none) ∧
    (∀ kvs : List (String × Json), lookupJ "type" kvs = some (.str "enum") →
      lookupJ "symbols" kvs = none → decodeComplex kvs = none) ∧
    decodeRecord [("name", .str "N"), ("fields", .arr [])] =
      some (.mk "N" none none [] [] ⟨none, []⟩) ∧
    decodeEnum [("name", .str "E"), ("symbols", .arr [.str "A"])] =
      some ⟨"E", none, none, [], ["A"], none, ⟨none, []⟩⟩ := by
  have hrec : ∀ kvs : List (String × Json), lookupJ "fields" kvs = none →
      decodeRecord kvs = none := by
    intro kvs h
    have hf : decodeFields kvs = none := by rw [decodeFields_eq, h]
    rw [decodeRecord_eq]
    simp [hf, bind_none_of]
  have henum : ∀ kvs : List (String × Json), lookupJ "symbols" kvs = none →
      decodeEnum kvs = none := by
    intro kvs h
    rw [decodeEnum, h]
    simp [bind_none_of]
  refine ⟨hrec, henum, fun kvs ht hf => ?_, fun kvs ht hs => ?_, ?_, ?_⟩
  · rw [decodeComplex_of_tag ht, if_pos rfl, hrec kvs hf]
    rfl
  · rw [decodeComplex_of_tag ht, if_neg (by decide), if_pos rfl, henum kvs hs]
    rfl
  · simp +decide [decodeRecord_eq, decodeFields_eq, decodeFieldList,
      reqString, decodeOptStr, decodeAliases, decodeAttrs, lookupJ,
      removeKeys, recordKeys]
  · simp +decide [decodeEnum, reqString, decodeOptStr, decodeAliases,
      asStringList, decodeAttrs, lookupJ, removeKeys, enumKeys]

theorem C8_required_keys_witness :
    lookupJ "fields" [("name", Json.str "N")] = none ∧
    decodeRecord [("name", Json.str "N")] = none ∧
    lookupJ "symbols" [("name", Json.str "E")] = none ∧
    decodeEnum [("name", Json.str "E")] = none := by
  have h1 : lookupJ "fields" [("name", Json.str "N")] = none := by
    simp [lookupJ]
  have h2 : lookupJ "symbols" [("name", Json.str "E")] = none := by
    simp [lookupJ]
  exact ⟨h1, C8_required_keys.1 _ h1, h2, C8_required_keys.2.1 _ h2⟩

/-- C10: the encoders emit every optional attribute explicitly — an absent
`namespace`, `doc` or `default` serializes as JSON `null` (serde has no
`skip_serializing_if`), and an empty alias list serializes as `[]`; the
decoders accept an explicit JSON `null` for these `Option` keys exactly
like absence; hence absent-versus-null inputs decode to the same value
(shown concretely for a record). -/
theorem C10_explicit_nulls :
    (∀ r : Record, r.nspace = none →
      lookupJ "namespace" (encodeRecordFields r) = some .null) ∧
    (∀ r : Record, r.doc = none →
      lookupJ "doc" (encodeRecordFields r) = some .null) ∧
    (∀ r : Record, r.aliases = [] →
      lookupJ "aliases" (encodeRecordFields r) = some (.arr [])) ∧
    (∀ f : Field, f.default = none →
      encodeField f = .obj [("name", .str f.name), ("doc", encodeOptStr f.doc),
        ("type", encodeSchema f.type), ("default", .null)]) ∧
    (∀ e : Enum, e.default = none →
      lookupJ "default" (encodeEnumFields e) = some .null) ∧
    (∀ f : Fixed, f.nspace = none →
      lookupJ "namespace" (encodeFixedFields f) = some .null) ∧
    (∀ (kvs : List (String × Json)) (k : String),
      lookupJ k kvs = some .null → decodeOptStr kvs k = some none) ∧
    (∀ (kvs : List (String × Json)) (k : String),
      lookupJ k kvs = none → decodeOptStr kvs k = some none) ∧
    decodeSchema (.obj [("type", .str "record"), ("name", .str "N"),
      ("namespace", .null), ("doc", .null), ("fields", .arr [])]) =
      decodeSchema (.obj [("type", .str "record"), ("name", .str "N"),
        ("fields", .arr [])]) := by
  refine ⟨fun r h => ?_, fun r h => ?_, fun r h => ?_, fun f h => ?_,
    fun e h => ?_, fun f h => ?_, fun kvs k h => by rw [decodeOptStr, h],
    fun kvs k h => by rw [decodeOptStr, h], ?_⟩
  · obtain ⟨nm, ns, doc, al, fs, attrs⟩ := r
    simp only [Record.nspace] at h
    subst h
    simp [encodeRecordFields, lookupJ, encodeOptStr]
  · obtain ⟨nm, ns, doc, al, fs, attrs⟩ := r
    simp only [Record.doc] at h
    subst h
    simp [encodeRecordFields, lookupJ, encodeOptStr]
  · obtain ⟨nm, ns, doc, al, fs, attrs⟩ := r
    simp only [Record.aliases] at h
    subst h
    simp [encodeRecordFields, lookupJ]
  · obtain ⟨nm, doc, ty, df⟩ := f
    simp only [Field.default] at h
    subst h
    rw [encodeField]
    rfl
  · obtain ⟨nm, ns, doc, al, syms, df, attrs⟩ := e
    simp only [Enum.default] at h
    subst h
    simp [encodeEnumFields, lookupJ, encodeOptStr]
  · obtain ⟨nm, ns, al, sz, attrs⟩ := f
    simp only [Fixed.nspace] at h
    subst h
    simp [encodeFixedFields, lookupJ, encodeOptStr]
  · have h1 : decodeSchema (.obj [("type", Json.str "record"), ("name", Json.str "N"),
        ("namespace", Json.null), ("doc", Json.null), ("fields", Json.arr [])]) =
        some (.complex (.record (.mk "N" none none [] [] ⟨none, []⟩))) := by
      simp +decide [decodeSchema, decodeComplex, decodeRecord_eq,
        decodeFields_eq, decodeFieldList, reqString, decodeOptStr,
        decodeAliases, decodeAttrs, lookupJ, removeKeys, recordKeys]
    have h2 : decodeSchema (.obj [("type", Json.str "record"), ("name", Json.str "N"),
        ("fields", Json.arr [])]) =
        some (.complex (.record (.mk "N" none none [] [] ⟨none, []⟩))) := by
      simp +decide [decodeSchema, decodeComplex, decodeRecord_eq,
        decodeFields_eq, decodeFieldList, reqString, decodeOptStr,
        decodeAliases, decodeAttrs, lookupJ, removeKeys, recordKeys]
    rw [h1, h2]

theorem C10_explicit_nulls_witness :
    lookupJ "namespace" (encodeRecordFields (.mk "N" none none [] [] ⟨none, []⟩)) =
      some .null ∧
    decodeOptStr [("namespace", Json.null)] "namespace" = some none ∧
    decodeOptStr [] "namespace" = some none := by
  refine ⟨C10_explicit_nulls.1 (.mk "N" none none [] [] ⟨none, []⟩) rfl,
    C10_explicit_nulls.2.2.2.2.2.2.1 [("namespace", Json.null)] "namespace"
      (by simp [lookupJ]),
    C10_explicit_nulls.2.2.2.2.2.2.2.1 [] "namespace" rfl⟩

/-- C6: encoding is canonical with a stable key order — each serialized
object lists the `"type"` tag first, then the declared struct fields in
declaration order, then the flattened attributes (`"logicalType"` followed
by the open mapping's entries in order); a `Field` object lists exactly
its four declared keys.  Encoding is a pure function of the graph, so
equal schemas always produce identical output. -/
theorem C6_canonical_order :
    (∀ r : Record, (encodeComplexFields (.record r)).map Prod.fst =
      ["type", "name", "namespace", "doc", "aliases", "fields", "logicalType"] ++
        r.attributes.additional.map Prod.fst) ∧
    (∀ e : Enum, (encodeComplexFields (.enum e)).map Prod.fst =
      ["type", "name", "namespace", "doc", "aliases", "symbols", "default",
        "logicalType"] ++ e.attributes.additional.map Prod.fst) ∧
    (∀ a : Array, (encodeComplexFields (.array a)).map Prod.fst =
      ["type", "items", "logicalType"] ++ a.attributes.additional.map Prod.fst) ∧
    (∀ m : Map, (encodeComplexFields (.map m)).map Prod.fst =
      ["type", "values", "logicalType"] ++ m.attributes.additional.map Prod.fst) ∧
    (∀ f : Fixed, (encodeComplexFields (.fixed f)).map Prod.fst =
      ["type", "name", "namespace", "aliases", "size", "logicalType"] ++
        f.attributes.additional.map Prod.fst) ∧
    (∀ t : AType, encodeSchema (.attrType t) =
      .obj (("type", .str (encodeTypeName t.type)) ::
        ("logicalType", encodeOptStr t.attributes.logicalType) ::
        t.attributes.additional)) ∧
    (∀ f : Field, encodeField f =
      .obj [("name", .str f.name), ("doc", encodeOptStr f.doc),
        ("type", encodeSchema f.type), ("default", encodeOptStr f.default)]) := by
  refine ⟨fun r => ?_, fun e => ?_, fun a => ?_, fun m => ?_, fun f => ?_,
    fun t => ?_, fun f => ?_⟩
  · obtain ⟨nm, ns, doc, al, fs, attrs⟩ := r
    rw [encodeComplexFields_record]
    simp [encodeRecordFields, encodeAttrsFields, Record.attributes]
  · obtain ⟨nm, ns, doc, al, syms, df, attrs⟩ := e
    rw [encodeComplexFields_enum]
    simp [encodeEnumFields, encodeAttrsFields]
  · obtain ⟨items, attrs⟩ := a
    rw [encodeComplexFields_array]
    simp [encodeArrayFields, encodeAttrsFields, Array.attributes]
  · obtain ⟨vals, attrs⟩ := m
    rw [encodeComplexFields_map]
    simp [encodeMapFields, encodeAttrsFields, Map.attributes]
  · obtain ⟨nm, ns, al, sz, attrs⟩ := f
    rw [encodeComplexFields_fixed]
    simp [encodeFixedFields, encodeAttrsFields]
  · rw [encodeSchema_attrType]
    rfl
  · obtain ⟨nm, doc, ty, df⟩ := f
    rw [encodeField]
    simp [Field.name, Field.doc, Field.type, Field.default]


end Avro

namespace Parquet

/-! ## The bloom-filter CLI (parquet-show-bloom-filter.rs)

`check_filter` and the per-row-group / per-value loops of `main`, embedded
over an abstract `Sbbf` (the membership-test primitive is an external
collaborator; the CLI calls `sbbf.check` at three concrete types).  Rust's
`str::parse::<i32>` / `::<i64>` are modelled faithfully: optional sign,
at least one decimal digit, and a range check. -/

/-- `parquet::basic::Type`, the physical type of a column. -/
inductive PhysicalType where
  | boolean : PhysicalType
  | int32 : PhysicalType
  | int64 : PhysicalType
  | int96 : PhysicalType
  | float : PhysicalType
  | double : PhysicalType
  | byteArray : PhysicalType
  | fixedLenByteArray : PhysicalType
deriving DecidableEq

/-- The split-block bloom filter, abstracted to its membership tests at the
three types the CLI uses (`&i32`, `&i64`, `&str`). -/
structure Sbbf where
  checkI32 : Int → Bool
  checkI64 : Int → Bool
  checkStr : String → Bool

/-- Accumulate the value of a non-empty all-digit suffix; `none` on the
first non-digit. -/
def digitsValAux : List Char → Nat → Option Nat
  | [], acc => some acc
  | c :: rest, acc =>
    if c.isDigit then digitsValAux rest (acc * 10 + (c.toNat - 48)) else none

/-- The numeric value of a non-empty digit string (`none` when empty or
containing a non-digit). -/
def digitsVal : List Char → Option Nat
  | [] => none
  | cs => digitsValAux cs 0

/-- Rust `FromStr` for decimal integers, before the width check: an
optional `+`/`-` sign followed by one or more decimal digits. -/
def parseIntRust (s : String) : Option Int :=
  match s.toList with
  | [] => none
  | '+' :: rest => (digitsVal rest).map Int.ofNat
  | '-' :: rest => (digitsVal rest).map fun n => -(Int.ofNat n)
  | cs => (digitsVal cs).map Int.ofNat

/-- `value.parse::<i32>()`: parse and range-check against i32. -/
def parseI32 (s : String) : Option Int :=
  (parseIntRust s).bind fun v =>
    if -(2 ^ 31) ≤ v ∧ v < 2 ^ 31 then some v else none

/-- `value.parse::<i64>()`: parse and range-check against i64. -/
def parseI64 (s : String) : Option Int :=
  (parseIntRust s).bind fun v =>
    if -(2 ^ 63) ≤ v ∧ v < 2 ^ 63 then some v else none

/-- `check_filter` from parquet-show-bloom-filter.rs: dispatch on the
column's physical type; parse the literal for the integer types (a parse
failure is a per-value diagnostic), check the raw string for
`BYTE_ARRAY`, and report any other physical type as unsupported. -/
def check_filter (sbbf : Sbbf) (value : String) (columnType : PhysicalType) :
    Except String Bool :=
  match columnType with
  | .int32 =>
    match parseI32 value with
    | some v => .ok (sbbf.checkI32 v)
    | none => .error ("Unable to parse value '" ++ value ++ "' to i32")
  | .int64 =>
    match parseI64 value with
    | some v => .ok (sbbf.checkI64 v)
    | none => .error ("Unable to parse value '" ++ value ++ "' to i64")
  | .byteArray => .ok (sbbf.checkStr value)
  | _ => .error "Unsupported column type for checking bloom filter"

/-- The line `main` prints for one literal: membership on success, the
diagnostic message on error — either way, one line, never an abort. -/
def valueMessage (value : String) : Except String Bool → String
  | .ok true => "Value " ++ value ++ " is present in bloom filter"
  | .ok false => "Value " ++ value ++ " is absent in bloom filter"
  | .error e => e

/-- The per-value loop of `main` (`args.values.iter().for_each(...)`):
every literal is processed, errors included. -/
def processValues (sbbf : Sbbf) (columnType : PhysicalType)
    (values : List String) : List String :=
  values.map fun v => valueMessage v (check_filter sbbf v columnType)

/-- One column chunk of a row group as the CLI sees it: its dotted path
name, physical type, and optional bloom filter. -/
structure ColumnChunk where
  name : String
  columnType : PhysicalType
  bloom : Option Sbbf

/-- The per-row-group body of `main`: find the named column, then check
every literal against its bloom filter (or report its absence or the
unknown column with candidates). -/
def processRowGroup (column : String) (values : List String)
    (rg : List ColumnChunk) : List String :=
  match rg.find? (fun c => c.name == column) with
  | some c =>
    match c.bloom with
    | some sbbf => processValues sbbf c.columnType values
    | none => ["No bloom filter found for column " ++ column]
  | none =>
    ["No column named " ++ column ++ " found, candidate columns are: " ++
      String.intercalate ", " (rg.map ColumnChunk.name)]

/-- The row-group loop of `main`: every row group is processed in turn,
regardless of what happened in earlier ones. -/
def processFile (column : String) (values : List String)
    (rgs : List (List ColumnChunk)) : List (List String) :=
  rgs.map (processRowGroup column values)

/-- C7: the per-value check of the bloom-filter CLI — for INT32/INT64
columns a parseable literal returns the membership result and an
unparsable literal returns a per-value diagnostic; a BYTE_ARRAY column
checks the literal as-is; every other physical type reports an
unsupported-column-type diagnostic.  The loops never abort: each literal
of each row group contributes exactly one output line. -/
theorem C7_bloom_cli_policy :
    (∀ (sbbf : Sbbf) (v : String) (n : Int), parseI32 v = some n →
      check_filter sbbf v .int32 = .ok (sbbf.checkI32 n)) ∧
    (∀ (sbbf : Sbbf) (v : String), parseI32 v = none →
      check_filter sbbf v .int32 =
        .error ("Unable to parse value '" ++ v ++ "' to i32")) ∧
    (∀ (sbbf : Sbbf) (v : String) (n : Int), parseI64 v = some n →
      check_filter sbbf v .int64 = .ok (sbbf.checkI64 n)) ∧
    (∀ (sbbf : Sbbf) (v : String), parseI64 v = none →
      check_filter sbbf v .int64 =
        .error ("Unable to parse value '" ++ v ++ "' to i64")) ∧
    (∀ (sbbf : Sbbf) (v : String),
      check_filter sbbf v .byteArray = .ok (sbbf.checkStr v)) ∧
    (∀ (sbbf : Sbbf) (v : String) (ct : PhysicalType),
      ct ≠ .int32 → ct ≠ .int64 → ct ≠ .byteArray →
      check_filter sbbf v ct =
        .error "Unsupported column type for checking bloom filter") ∧
    (∀ (sbbf : Sbbf) (ct : PhysicalType) (values : List String),
      (processValues sbbf ct values).length = values.length) ∧
    (∀ (sbbf : Sbbf) (ct : PhysicalType) (values : List String) (v : String),
      v ∈ values →
      valueMessage v (check_filter sbbf v ct) ∈ processValues sbbf ct values) ∧
    (∀ (column : String) (values : List String) (rgs : List (List ColumnChunk)),
      (processFile column values rgs).length = rgs.length) := by
  refine ⟨fun sbbf v n h => by rw [check_filter, h],
    fun sbbf v h => by rw [check_filter, h],
    fun sbbf v n h => by rw [check_filter, h],
    fun sbbf v h => by rw [check_filter, h],
    fun sbbf v => rfl,
    fun sbbf v ct h1 h2 h3 => ?_,
    fun sbbf ct values => by rw [processValues, List.length_map],
    fun sbbf ct values v hv => List.mem_map_of_mem _ hv,
    fun column values rgs => by rw [processFile, List.length_map]⟩
  cases ct with
  | int32 => exact absurd rfl h1
  | int64 => exact absurd rfl h2
  | byteArray => exact absurd rfl h3
  | boolean => rfl
  | int96 => rfl
  | float => rfl
  | double => rfl
  | fixedLenByteArray => rfl

theorem C7_bloom_cli_policy_witness :
    parseI32 "42" = some 42 ∧
    check_filter ⟨fun n => n == 42, fun _ => false, fun _ => false⟩ "42"
      .int32 = .ok true ∧
    parseI32 "abc" = none ∧
    check_filter ⟨fun n => n == 42, fun _ => false, fun _ => false⟩ "abc"
      .int32 = .error "Unable to parse value 'abc' to i32" ∧
    check_filter ⟨fun n => n == 42, fun _ => false, fun _ => false⟩ "x"
      .boolean = .error "Unsupported column type for checking bloom filter" ∧
    (processValues ⟨fun n => n == 42, fun _ => false, fun _ => false⟩
      .int32 ["42", "abc", "7"]).length = 3 := by
  have h42 : parseI32 "42" = some 42 := by decide
  have habc : parseI32 "abc" = none := by decide
  refine ⟨h42, ?_, habc, ?_, ?_, ?_⟩
  · rw [C7_bloom_cli_policy.1 _ "42" 42 h42]
    rfl
  · rw [C7_bloom_cli_policy.2.1 _ "abc" habc]
    rfl
  · exact C7_bloom_cli_policy.2.2.2.2.2.1 _ "x" .boolean
      (by decide) (by decide) (by decide)
  · exact C7_bloom_cli_policy.2.2.2.2.2.2.1 _ .int32 ["42", "abc", "7"]

end Parquet
